import Mathlib

/-!
# serde_cbor (getditto fork): shallow embedding and verification

This file embeds the CBOR encoder (`src/ser.rs`) and decoder (`src/de.rs`)
of the serde_cbor crate and proves/refutes the frozen claims about them.

Conventions of the embedding:

* bytes are `Nat` (always < 256 on real inputs, but nothing depends on it);
* machine integers are `Nat`/`Int`; `u64` overflow is expressed with
  explicit bounds (`< 2 ^ 64`); the platform is modelled as 64-bit, so
  `usize::MAX = 2 ^ 64 - 1`;
* the byte sources of `read.rs` (not part of the provided sources) are
  modelled from the spec, §4.2.  A decoder state carries the remaining
  input and the recursion budget `remaining_depth`.  The scratch buffer
  that reassembles indefinite strings is modelled functionally: the chunk
  loops return the reassembled bytes (`clear_buffer` = start from `[]`,
  `read_to_buffer` = append, `take_buffer` = return the accumulator with
  the scratch-scoped `short` flavor, which is what both the slice and the
  stream provider produce for reassembled strings);
* the decoder is driven by the `Value` visitor (the fuzz targets decode
  to `serde_cbor::Value`); `value/mod.rs` is not in the sources, so the
  visitor and the `Value` tree are modelled from the spec (§4.3, §6.3):
  maps are kept in stream order as association lists, floats keep their
  raw wire payload (no claim depends on float arithmetic);
* Rust recursion becomes structural recursion on an explicit fuel; fuel
  exhaustion is the distinguished `ErrorCode.outOfFuel`, which the entry
  points never produce because their fuel exceeds the length of the
  input (every fuel unit spent corresponds to at least one input byte);
* errors are modelled by their `ErrorCode`; the byte offsets carried by
  `error.rs` (also not in the provided sources) are not modelled, and no
  claim depends on them.
-/

namespace SerdeCbor

/-- Lifetime class of a byte run handed to the visitor (spec §3.3):
`long` = borrowed from the input, `short` = scratch-buffer scoped. -/
inductive Flavor where
  | long
  | short
deriving DecidableEq, Repr

/-- The two byte-source providers compared by the fuzz targets:
`SliceRead` (borrowing) and `IoRead` (copying).  Modelled from the spec,
§4.2 (`read.rs` is not part of the provided sources). -/
inductive Kind where
  | slice
  | reader
deriving DecidableEq, Repr

/-- The flavor an immediate `Read::read` produces: the slice provider
borrows from the input (`long`), the stream provider copies into its
scratch (`short`).  Spec §4.2. -/
def flavorOf : Kind → Flavor
  | .slice => .long
  | .reader => .short

/-- The `ValidValues` mask of `de.rs` (lines 1496-1506): which cases
`parse_value` accepts and generates code for.  The source expresses it as
a trait with boolean associated constants; per spec §9 a runtime record
with identical semantics is an equivalent formulation. -/
structure ValidValues where
  string : Bool := false
  bytes : Bool := false
  intPos : Bool := false
  intNeg : Bool := false
  float : Bool := false
  array : Bool := false
  map : Bool := false
  bool : Bool := false
  null : Bool := false
deriving DecidableEq, Repr

/-- `ValidAll` (de.rs lines 1507-1518). -/
def ValidAll : ValidValues :=
  { string := true, bytes := true, intPos := true, intNeg := true,
    float := true, array := true, map := true, bool := true, null := true }

/-- `ValidForString` (de.rs lines 1519-1523). -/
def ValidForString : ValidValues := { string := true, bytes := true }

/-- `ValidForStringAndUInt` (de.rs lines 1524-1528). -/
def ValidForStringAndUInt : ValidValues := { string := true, intPos := true }

/-- `ValidForBytes` (de.rs lines 1529-1534). -/
def ValidForBytes : ValidValues := { array := true, string := true, bytes := true }

/-- `ValidForSInt` (de.rs lines 1535-1539). -/
def ValidForSInt : ValidValues := { intPos := true, intNeg := true }

/-- `ValidForUInt` (de.rs lines 1540-1543). -/
def ValidForUInt : ValidValues := { intPos := true }

/-- `ValidForFloat` (de.rs lines 1544-1549). -/
def ValidForFloat : ValidValues := { intPos := true, intNeg := true, float := true }

/-- `ValidForSeq` (de.rs lines 1550-1553). -/
def ValidForSeq : ValidValues := { array := true }

/-- `ValidForMap` (de.rs lines 1554-1557). -/
def ValidForMap : ValidValues := { map := true }

/-- `ValidForBool` (de.rs lines 1558-1561). -/
def ValidForBool : ValidValues := { bool := true }

/-- `ValidForUnit` (de.rs lines 1562-1565). -/
def ValidForUnit : ValidValues := { null := true }

/-- Modelled from the spec: the `ExpectedSet` of `error.rs` (not in the
provided sources) records which major-type cases the caller was willing
to accept; it is carried by `UnexpectedCode` errors.  We identify it with
the mask itself. -/
abbrev ExpectedSet := ValidValues

/-- Modelled from the spec: `ExpectedSet::STRING`, used by the
indefinite-string chunk loops (de.rs lines 442 and 495). -/
def ExpectedSet.STRING : ExpectedSet := { string := true }

/-- Modelled from the spec: `ExpectedSet::from_valid::<Valid>()`
(de.rs line 760) packages the active mask into the error. -/
def ExpectedSet.from_valid (m : ValidValues) : ExpectedSet := m

/-- The error codes of `error.rs` (spec §7; `error.rs` is not in the
provided sources — the constructors are the kinds named by the spec's §7
table and the `de.rs`/`ser.rs` call sites).  `outOfFuel` is an artifact
of the fuel-based embedding, unreachable at the fuel the entry points
use. -/
inductive ErrorCode where
  | eofWhileParsingValue
  | eofWhileParsingArray
  | eofWhileParsingMap
  | eofWhileParsingString
  | unexpectedCode (expected : ExpectedSet) (byte : Nat)
  | lengthOutOfRange
  | invalidUtf8
  | recursionLimitExceeded
  | trailingData
  | arrayTooShort
  | arrayTooLong
  | wrongStructFormat
  | wrongEnumFormat
  | message (msg : String)
  | outOfFuel
deriving DecidableEq, Repr

/-- The four decoder flags of `DeserializerOptions` (de.rs lines 179-209)
with their default values. -/
structure DeserializerOptions where
  accept_named : Bool := true
  accept_packed : Bool := true
  accept_standard_enums : Bool := true
  accept_legacy_enums : Bool := false
deriving DecidableEq, Repr

/-- `DefaultDeserializerOptions` (de.rs line 213). -/
def defaultOptions : DeserializerOptions := {}

/-- Decoder state: the remaining input bytes of the source and the
`remaining_depth` recursion budget of the `Deserializer` struct
(de.rs lines 130-134). -/
structure S where
  inp : List Nat
  depth : Nat
deriving DecidableEq, Repr

/-- `usize::MAX` of the modelled 64-bit platform. -/
def usizeMax : Nat := 2 ^ 64 - 1

/-- `i64::max_value() as u64` (de.rs line 669). -/
def i64MaxU : Nat := 2 ^ 63 - 1

/-- The host value tree produced by decoding, modelled from the spec
(§3.1, §6.3): the `Value` type of the crate (`value/mod.rs` is not in the
provided sources).  Maps are kept in stream order; floats keep the raw
follow-on bytes of the wire item (the numeric f16/f32 → f64 widening is
not modelled; no claim depends on float values). -/
inductive Value where
  | null
  | bool (b : Bool)
  | integer (z : Int)
  | float (magnitude : Nat) (payload : List Nat)
  | bytes (bs : List Nat)
  | text (bs : List Nat)
  | array (xs : List Value)
  | map (entries : List (Value × Value))
  | tag (t : Nat) (v : Value)

/-! ## Byte-source operations (spec §4.2) -/

/-- `Read::next`: consume and return the next byte, `none` at EOF. -/
def next (s : S) : Option Nat × S :=
  match s.inp with
  | [] => (none, s)
  | b :: rest => (some b, { s with inp := rest })

/-- `Read::peek`: return the next byte without consuming. -/
def peek (s : S) : Option Nat := s.inp.head?

/-- `parse_u8` (de.rs lines 404-410). -/
def parse_u8 (s : S) : Except ErrorCode Nat × S :=
  match s.inp with
  | [] => (.error .eofWhileParsingValue, s)
  | b :: rest => (.ok b, { s with inp := rest })

/-- `Read::read_into`: copy `n` bytes out of the source (used for integer
and float payloads); both providers behave identically. -/
def read_into (n : Nat) (s : S) : Except ErrorCode (List Nat) × S :=
  if n ≤ s.inp.length then
    (.ok (s.inp.take n), { s with inp := s.inp.drop n })
  else (.error .eofWhileParsingValue, s)

/-- `Read::read`: obtain `n` contiguous bytes, as a borrow into the
input (`long`, slice provider) or a scratch-scoped copy (`short`, stream
provider).  Modelled from the spec §4.2. -/
def readn (k : Kind) (n : Nat) (s : S) : Except ErrorCode (Flavor × List Nat) × S :=
  if n ≤ s.inp.length then
    (.ok (flavorOf k, s.inp.take n), { s with inp := s.inp.drop n })
  else (.error .eofWhileParsingString, s)

/-- `Read::read_to_buffer`: move `n` input bytes into the scratch buffer
(both providers); the caller appends the returned run to its
accumulator.  Modelled from the spec §4.2. -/
def read_exact (n : Nat) (s : S) : Except ErrorCode (List Nat) × S :=
  if n ≤ s.inp.length then
    (.ok (s.inp.take n), { s with inp := s.inp.drop n })
  else (.error .eofWhileParsingString, s)

/-- Big-endian interpretation of a byte run
(`u64::from_be_bytes` with leading zeros, de.rs line 401). -/
def fromBE (bs : List Nat) : Nat := bs.foldl (fun a b => 256 * a + b) 0

/-- `parse_uint` (de.rs lines 395-402): read `1 << (magnitude-1)` bytes
and interpret them big-endian. -/
def parse_uint (magnitude : Nat) (s : S) : Except ErrorCode Nat × S :=
  match read_into (1 <<< (magnitude - 1)) s with
  | (.ok bs, s1) => (.ok (fromBE bs), s1)
  | (.error e, s1) => (.error e, s1)

/-- `parse_float` (de.rs lines 631-641): read the `1 << (magnitude-1)`
follow-on bytes of a float item.  The numeric f16/f32 → f64 widening is
kept as the raw payload (no claim concerns float arithmetic). -/
def parse_float (magnitude : Nat) (s : S) : Except ErrorCode Value × S :=
  match read_into (1 <<< (magnitude - 1)) s with
  | (.ok bs, s1) => (.ok (.float magnitude bs), s1)
  | (.error e, s1) => (.error e, s1)

/-! ## UTF-8 validation (`str::from_utf8`, used by `convert_str`,
de.rs lines 451-456) -/

/-- A UTF-8 continuation byte. -/
def utf8Cont (b : Nat) : Bool := 0x80 ≤ b && b ≤ 0xbf

/-- RFC 3629 UTF-8 validity of a byte run, as enforced by Rust's
`str::from_utf8`. -/
def utf8Valid : List Nat → Bool
  | [] => true
  | b :: rest =>
    if b ≤ 0x7f then utf8Valid rest
    else if 0xc2 ≤ b && b ≤ 0xdf then
      match rest with
      | c1 :: r => utf8Cont c1 && utf8Valid r
      | [] => false
    else if b = 0xe0 then
      match rest with
      | c1 :: c2 :: r => (0xa0 ≤ c1 && c1 ≤ 0xbf) && utf8Cont c2 && utf8Valid r
      | _ => false
    else if (0xe1 ≤ b && b ≤ 0xec) || b = 0xee || b = 0xef then
      match rest with
      | c1 :: c2 :: r => utf8Cont c1 && utf8Cont c2 && utf8Valid r
      | _ => false
    else if b = 0xed then
      match rest with
      | c1 :: c2 :: r => (0x80 ≤ c1 && c1 ≤ 0x9f) && utf8Cont c2 && utf8Valid r
      | _ => false
    else if b = 0xf0 then
      match rest with
      | c1 :: c2 :: c3 :: r =>
        (0x90 ≤ c1 && c1 ≤ 0xbf) && utf8Cont c2 && utf8Cont c3 && utf8Valid r
      | _ => false
    else if 0xf1 ≤ b && b ≤ 0xf3 then
      match rest with
      | c1 :: c2 :: c3 :: r =>
        utf8Cont c1 && utf8Cont c2 && utf8Cont c3 && utf8Valid r
      | _ => false
    else if b = 0xf4 then
      match rest with
      | c1 :: c2 :: c3 :: r =>
        (0x80 ≤ c1 && c1 ≤ 0x8f) && utf8Cont c2 && utf8Cont c3 && utf8Valid r
      | _ => false
    else false

/-! ## Visitor callbacks of the `Value` visitor (spec §6.3) -/

/-- `visit_borrowed_bytes` / `visit_bytes` of the `Value` visitor: both
flavors build `Value::Bytes` (de.rs lines 421-424 dispatch on the
flavor; the `Value` visitor treats them alike). -/
def visitBytes : Flavor → List Nat → Value
  | .long, bs => .bytes bs
  | .short, bs => .bytes bs

/-- `convert_str` (de.rs lines 451-456) followed by
`visit_borrowed_str` / `visit_str` of the `Value` visitor. -/
def visitStr (fl : Flavor) (bs : List Nat) : Except ErrorCode Value :=
  match fl with
  | .long => if utf8Valid bs then .ok (.text bs) else .error .invalidUtf8
  | .short => if utf8Valid bs then .ok (.text bs) else .error .invalidUtf8

/-- The signed deliveries of the major-type-1 arm (de.rs lines 663-675):
a value fitting `i64` is visited via `visit_i64`, otherwise via
`visit_i128`. -/
inductive SignedDelivery where
  | i64 (z : Int)
  | i128 (z : Int)
deriving DecidableEq, Repr

/-- The width check of the major-type-1 wide path (de.rs lines 668-673):
deliver `-1 - u` as `i128` when `u > i64::MAX as u64`, else as `i64`. -/
def deliverSigned (u : Nat) : SignedDelivery :=
  if u > i64MaxU then .i128 (-1 - (u : Int)) else .i64 (-1 - (u : Int))

/-- `visit_i64` / `visit_i128` of the `Value` visitor: both construct
`Value::Integer`. -/
def Value.ofSigned : SignedDelivery → Value
  | .i64 z => .integer z
  | .i128 z => .integer z

/-- `recursion_checked` (de.rs lines 526-537): decrement
`remaining_depth`, fail with `RecursionLimitExceeded` when it reaches
zero, otherwise run the body and increment the depth of whatever state
the body left behind. -/
def recursion_checked {α : Type} (s : S) (body : S → Except ErrorCode α × S) :
    Except ErrorCode α × S :=
  let s1 : S := { s with depth := s.depth - 1 }
  if s1.depth = 0 then (.error .recursionLimitExceeded, s1)
  else
    match body s1 with
    | (r, s2) => (r, { s2 with depth := s2.depth + 1 })

/-- The shared length-parsing pattern of every `parse_value` arm
(de.rs lines 654-747): additional information up to 23 is the value
itself, 24-27 select a 1/2/4/8-byte big-endian follow-on. `base` is the
arm's first byte (`major << 5`), so e.g. for major 2 the bounds are the
source's literals `0x57 = base + 0x17`. -/
def parseLen (base : Nat) (b : Nat) (s : S) : Except ErrorCode Nat × S :=
  if b ≤ base + 0x17 then (.ok (b - base), s)
  else
    match parse_uint (b - (base + 0x17)) s with
    | (.ok u, s1) => (.ok u, s1)
    | (.error e, s1) => (.error e, s1)

/-- The definite path of `parse_bytes` (de.rs lines 412-425): a single
`read` passed to the byte-string visitor. -/
def readBytesItem (k : Kind) (len : Nat) (s : S) : Except ErrorCode Value × S :=
  match readn k len s with
  | (.ok (fl, bs), s1) => (.ok (visitBytes fl bs), s1)
  | (.error e, s1) => (.error e, s1)

/-- The definite path of `parse_str` (de.rs lines 458-478): a single
`read`, UTF-8-checked and passed to the string visitor. -/
def readStrItem (k : Kind) (len : Nat) (s : S) : Except ErrorCode Value × S :=
  match readn k len s with
  | (.ok (fl, bs), s1) =>
    match visitStr fl bs with
    | .ok v => (.ok v, s1)
    | .error e => (.error e, s1)
  | (.error e, s1) => (.error e, s1)

/-! ## Loop bodies driven by the visitor -/

/-- The definite-length element loop: `SeqAccess::next_element_seed`
(de.rs lines 1095-1114) driven by the `Value` visitor's `visit_seq`,
which drains the counted elements. -/
def elemsGo (pv : S → Except ErrorCode Value × S) :
    Nat → S → Except ErrorCode (List Value) × S
  | 0, s => (.ok [], s)
  | n + 1, s =>
    match pv s with
    | (.ok v, s1) =>
      match elemsGo pv n s1 with
      | (.ok vs, s2) => (.ok (v :: vs), s2)
      | (.error e, s2) => (.error e, s2)
    | (.error e, s1) => (.error e, s1)

/-- The indefinite-length element loop: `SeqAccess::next_element_seed`
with no count pulls elements until it peeks the stop byte `0xff`
(de.rs lines 1104-1110); EOF inside is `EofWhileParsingArray`.  The
second argument is the loop fuel. -/
def indefElemsGo (pv : S → Except ErrorCode Value × S) :
    Nat → S → Except ErrorCode (List Value) × S
  | 0, s => (.error .outOfFuel, s)
  | f + 1, s =>
    match peek s with
    | none => (.error .eofWhileParsingArray, s)
    | some 0xff => (.ok [], s)
    | some _ =>
      match pv s with
      | (.ok v, s1) =>
        match indefElemsGo pv f s1 with
        | (.ok vs, s2) => (.ok (v :: vs), s2)
        | (.error e, s2) => (.error e, s2)
      | (.error e, s1) => (.error e, s1)

/-- The key-shape gate of `MapAccess::next_key_seed`
(de.rs lines 1160-1173): when a key format has been disabled, a peeked
major-0 head (packed disabled) or a byte in `0x60..=0x7f` (named
disabled) is rejected with `WrongStructFormat` before the key is
consumed. -/
def checkKeyShape (o : DeserializerOptions) (s : S) : Option ErrorCode :=
  if o.accept_named = false ∨ o.accept_packed = false then
    match peek s with
    | some b =>
      if b ≤ 0x1b ∧ o.accept_packed = false then some .wrongStructFormat
      else if (0x60 ≤ b ∧ b ≤ 0x7f) ∧ o.accept_named = false then some .wrongStructFormat
      else none
    | none => none
  else none

/-- The definite-length entry loop of `MapAccess` (de.rs lines
1143-1184): per entry, the key-shape gate, then the key, then the
value. -/
def mapGo (o : DeserializerOptions) (pv : S → Except ErrorCode Value × S) :
    Nat → S → Except ErrorCode (List (Value × Value)) × S
  | 0, s => (.ok [], s)
  | n + 1, s =>
    match checkKeyShape o s with
    | some e => (.error e, s)
    | none =>
      match pv s with
      | (.ok kv, s1) =>
        match pv s1 with
        | (.ok vv, s2) =>
          match mapGo o pv n s2 with
          | (.ok ps, s3) => (.ok ((kv, vv) :: ps), s3)
          | (.error e, s3) => (.error e, s3)
        | (.error e, s2) => (.error e, s2)
      | (.error e, s1) => (.error e, s1)

/-- The indefinite-length entry loop of `MapAccess`: stop on a peeked
`0xff`, EOF inside is `EofWhileParsingMap`. -/
def indefMapGo (o : DeserializerOptions) (pv : S → Except ErrorCode Value × S) :
    Nat → S → Except ErrorCode (List (Value × Value)) × S
  | 0, s => (.error .outOfFuel, s)
  | f + 1, s =>
    match peek s with
    | none => (.error .eofWhileParsingMap, s)
    | some 0xff => (.ok [], s)
    | some _ =>
      match checkKeyShape o s with
      | some e => (.error e, s)
      | none =>
        match pv s with
        | (.ok kv, s1) =>
          match pv s1 with
          | (.ok vv, s2) =>
            match indefMapGo o pv f s2 with
            | (.ok ps, s3) => (.ok ((kv, vv) :: ps), s3)
            | (.error e, s3) => (.error e, s3)
          | (.error e, s2) => (.error e, s2)
        | (.error e, s1) => (.error e, s1)

/-- The chunk loop of `read_indefinite_bytes` (de.rs lines 427-449):
every chunk head must be a definite-length major-2 head; `0xff` stops and
surfaces the reassembled buffer; anything else is
`UnexpectedCode(STRING, byte)`. -/
def bytesChunksGo (acc : List Nat) : Nat → S → Except ErrorCode (List Nat) × S
  | 0, s => (.error .outOfFuel, s)
  | f + 1, s =>
    match parse_u8 s with
    | (.error e, s1) => (.error e, s1)
    | (.ok b, s1) =>
      if 0x40 ≤ b ∧ b ≤ 0x57 then
        match read_exact (b - 0x40) s1 with
        | (.ok bs, s2) => bytesChunksGo (acc ++ bs) f s2
        | (.error e, s2) => (.error e, s2)
      else if 0x58 ≤ b ∧ b ≤ 0x5b then
        match parse_uint (b - 0x57) s1 with
        | (.ok len, s2) =>
          if len > usizeMax then (.error .lengthOutOfRange, s2)
          else
            match read_exact len s2 with
            | (.ok bs, s3) => bytesChunksGo (acc ++ bs) f s3
            | (.error e, s3) => (.error e, s3)
        | (.error e, s2) => (.error e, s2)
      else if b = 0xff then (.ok acc, s1)
      else (.error (.unexpectedCode ExpectedSet.STRING b), s1)

/-- The chunk loop of `read_indefinite_str` (de.rs lines 480-502):
every chunk head must be a definite-length major-3 head; `0xff` stops;
anything else — including a nested `0x7f` — is
`UnexpectedCode(STRING, byte)`. -/
def strChunksGo (acc : List Nat) : Nat → S → Except ErrorCode (List Nat) × S
  | 0, s => (.error .outOfFuel, s)
  | f + 1, s =>
    match parse_u8 s with
    | (.error e, s1) => (.error e, s1)
    | (.ok b, s1) =>
      if 0x60 ≤ b ∧ b ≤ 0x77 then
        match read_exact (b - 0x60) s1 with
        | (.ok bs, s2) => strChunksGo (acc ++ bs) f s2
        | (.error e, s2) => (.error e, s2)
      else if 0x78 ≤ b ∧ b ≤ 0x7b then
        match parse_uint (b - 0x77) s1 with
        | (.ok len, s2) =>
          if len > usizeMax then (.error .lengthOutOfRange, s2)
          else
            match read_exact len s2 with
            | (.ok bs, s3) => strChunksGo (acc ++ bs) f s3
            | (.error e, s3) => (.error e, s3)
        | (.error e, s2) => (.error e, s2)
      else if b = 0xff then (.ok acc, s1)
      else (.error (.unexpectedCode ExpectedSet.STRING b), s1)

/-- One step of `parse_value` (de.rs lines 646-764) driven by the
`Value` visitor, with `pv` standing for the recursive parse of a nested
value (at mask `ValidAll`, as the `Value` seed deserializes with
`deserialize_any`) and `lf` the fuel handed to the indefinite loops.
The arm order, byte ranges, literal offsets and mask guards mirror the
source's `match`: the ranges are disjoint, so a range whose guard is off
falls through to the final `UnexpectedCode` arm exactly as in the
source. -/
def parseValueF (o : DeserializerOptions) (k : Kind)
    (pv : S → Except ErrorCode Value × S) (lf : Nat)
    (m : ValidValues) (s : S) : Except ErrorCode Value × S :=
  match parse_u8 s with
  | (.error e, s0) => (.error e, s0)
  | (.ok b, s0) =>
    -- Major type 0: an unsigned integer
    if b ≤ 0x1b ∧ m.intPos = true then
      match parseLen 0x00 b s0 with
      | (.ok u, s1) => (.ok (.integer u), s1)
      | (.error e, s1) => (.error e, s1)
    -- Major type 1: a negative integer
    else if (0x20 ≤ b ∧ b ≤ 0x3b) ∧ m.intNeg = true then
      if b ≤ 0x37 then (.ok (Value.ofSigned (.i64 (-1 - ((b - 0x20 : Nat) : Int)))), s0)
      else
        match parse_uint (b - 0x37) s0 with
        | (.ok u, s1) => (.ok (Value.ofSigned (deliverSigned u)), s1)
        | (.error e, s1) => (.error e, s1)
    -- Major type 2: a byte string
    else if ((0x40 ≤ b ∧ b ≤ 0x5b) ∨ b = 0x5f) ∧ m.bytes = true then
      if b = 0x5f then
        match bytesChunksGo [] lf s0 with
        | (.ok bs, s2) => (.ok (visitBytes .short bs), s2)
        | (.error e, s2) => (.error e, s2)
      else
        match parseLen 0x40 b s0 with
        | (.ok len, s1) =>
          if len > usizeMax then (.error .lengthOutOfRange, s1)
          else readBytesItem k len s1
        | (.error e, s1) => (.error e, s1)
    -- Major type 3: a text string
    else if ((0x60 ≤ b ∧ b ≤ 0x7b) ∨ b = 0x7f) ∧ m.string = true then
      if b = 0x7f then
        match strChunksGo [] lf s0 with
        | (.ok bs, s2) =>
          match visitStr .short bs with
          | .ok v => (.ok v, s2)
          | .error e => (.error e, s2)
        | (.error e, s2) => (.error e, s2)
      else
        match parseLen 0x60 b s0 with
        | (.ok len, s1) =>
          if len > usizeMax then (.error .lengthOutOfRange, s1)
          else readStrItem k len s1
        | (.error e, s1) => (.error e, s1)
    -- Major type 4: an array of data items
    else if ((0x80 ≤ b ∧ b ≤ 0x9b) ∨ b = 0x9f) ∧ m.array = true then
      if b = 0x9f then
        recursion_checked s0 (fun s1 =>
          match indefElemsGo pv lf s1 with
          | (.ok vs, s2) =>
            match next s2 with
            | (some 0xff, s3) => (.ok (.array vs), s3)
            | (some _, s3) => (.error .trailingData, s3)
            | (none, s3) => (.error .eofWhileParsingArray, s3)
          | (.error e, s2) => (.error e, s2))
      else
        match parseLen 0x80 b s0 with
        | (.ok len, s1) =>
          if len > usizeMax then (.error .lengthOutOfRange, s1)
          else
            recursion_checked s1 (fun s2 =>
              match elemsGo pv len s2 with
              | (.ok vs, s3) => (.ok (.array vs), s3)
              | (.error e, s3) => (.error e, s3))
        | (.error e, s1) => (.error e, s1)
    -- Major type 5: a map of pairs of data items
    else if ((0xa0 ≤ b ∧ b ≤ 0xbb) ∨ b = 0xbf) ∧ m.map = true then
      if b = 0xbf then
        recursion_checked s0 (fun s1 =>
          match indefMapGo o pv lf s1 with
          | (.ok ps, s2) =>
            match next s2 with
            | (some 0xff, s3) => (.ok (.map ps), s3)
            | (some _, s3) => (.error .trailingData, s3)
            | (none, s3) => (.error .eofWhileParsingMap, s3)
          | (.error e, s2) => (.error e, s2))
      else
        match parseLen 0xa0 b s0 with
        | (.ok len, s1) =>
          if len > usizeMax then (.error .lengthOutOfRange, s1)
          else
            recursion_checked s1 (fun s2 =>
              match mapGo o pv len s2 with
              | (.ok ps, s3) => (.ok (.map ps), s3)
              | (.error e, s3) => (.error e, s3))
        | (.error e, s1) => (.error e, s1)
    -- Major type 6: semantic tagging (tags feature enabled): read the
    -- tag, then deliver the following item as a tagged newtype
    else if 0xc0 ≤ b ∧ b ≤ 0xdb then
      match parseLen 0xc0 b s0 with
      | (.ok t, s1) =>
        recursion_checked s1 (fun s2 =>
          match pv s2 with
          | (.ok v, s3) => (.ok (.tag t v), s3)
          | (.error e, s3) => (.error e, s3))
      | (.error e, s1) => (.error e, s1)
    -- Major type 7: simple values and floats
    else if (0xf4 ≤ b ∧ b ≤ 0xf5) ∧ m.bool = true then (.ok (.bool (b = 0xf5)), s0)
    else if (0xf6 ≤ b ∧ b ≤ 0xf7) ∧ m.null = true then (.ok .null, s0)
    else if (0xf9 ≤ b ∧ b ≤ 0xfb) ∧ m.float = true then parse_float (b - 0xf9 + 2) s0
    else (.error (.unexpectedCode (ExpectedSet.from_valid m) b), s0)

/-- `parse_value` with explicit fuel.  Nested values (array and map
elements, tagged inner values) are parsed at mask `ValidAll`, as the
`Value` seed enters through `deserialize_any` (de.rs lines 775-780). -/
def parseValue : Nat → DeserializerOptions → ValidValues → Kind → S →
    Except ErrorCode Value × S
  | 0, _, _, _, s => (.error .outOfFuel, s)
  | f + 1, o, m, k, s => parseValueF o k (parseValue f o ValidAll k) f m s

/-- A top-level decode followed by `Deserializer::end` (de.rs lines
354-359): any remaining byte is `TrailingData`.  The initial
`remaining_depth` is 128 (de.rs line 307); the fuel exceeds the input
length, so `outOfFuel` is unreachable. -/
def deserializeWith (o : DeserializerOptions) (k : Kind) (bs : List Nat) :
    Except ErrorCode Value :=
  match parseValue (bs.length + 2) o ValidAll k ⟨bs, 128⟩ with
  | (.ok v, s) =>
    match next s with
    | (some _, _) => .error .trailingData
    | (none, _) => .ok v
  | (.error e, _) => .error e

/-- `from_slice` (de.rs lines 48-56) at the `Value` type. -/
def from_slice (bs : List Nat) : Except ErrorCode Value :=
  deserializeWith defaultOptions .slice bs

/-- `from_reader` (de.rs lines 117-126) at the `Value` type, reading the
same byte sequence through the copying stream provider. -/
def from_reader (bs : List Nat) : Except ErrorCode Value :=
  deserializeWith defaultOptions .reader bs

/-! ## Encoder (`ser.rs`) -/

/-- Big-endian bytes of the low `8 * w` bits of `v`
(`to_be_bytes` after the width cast, ser.rs lines 276-284). -/
def toBEBytes : Nat → Nat → List Nat
  | 0, _ => []
  | w + 1, v => toBEBytes w (v / 256) ++ [v % 256]

/-- `write_u64` (ser.rs lines 264-289): the minimal-length head writer.
Payloads up to 23 ride in the initial byte; otherwise the smallest of
the 1/2/4/8-byte follow-on widths that fits is picked. -/
def write_u64 (major : Nat) (value : Nat) : List Nat :=
  if value ≤ 0x17 then [major <<< 5 ||| value]
  else if value ≤ 0xff then (major <<< 5 ||| 24) :: toBEBytes 1 value
  else if value ≤ 0xffff then (major <<< 5 ||| 25) :: toBEBytes 2 value
  else if value ≤ 0xffffffff then (major <<< 5 ||| 26) :: toBEBytes 4 value
  else (major <<< 5 ||| 27) :: toBEBytes 8 value

/-- `u64::max_value()` as an `Int` (ser.rs lines 367, 372, 401). -/
def u64MaxI : Int := 2 ^ 64 - 1

/-- `serialize_i128` (ser.rs lines 365-377): negative values become
major 1 with payload `-(value + 1)`, non-negative become major 0; a
magnitude beyond `u64` fails before anything is written. -/
def serialize_i128 (value : Int) : Except ErrorCode (List Nat) :=
  if value < 0 then
    if -(value + 1) > u64MaxI then .error (.message "The number can't be stored in CBOR")
    else .ok (write_u64 1 (-(value + 1)).toNat)
  else
    if value > u64MaxI then .error (.message "The number can't be stored in CBOR")
    else .ok (write_u64 0 value.toNat)

/-- `serialize_u128` (ser.rs lines 400-405). -/
def serialize_u128 (value : Nat) : Except ErrorCode (List Nat) :=
  if (value : Int) > u64MaxI then .error (.message "The number can't be stored in CBOR")
  else .ok (write_u64 0 value)

mutual

/-- Serialization of a `Value` tree: the visitor-driven walk of
`ser.rs` applied to the `Value` serializer (modelled from the spec §4.4
type-to-major table; `value/mod.rs` is not in the provided sources).
Arrays and maps have known lengths, so they serialize definite-length;
a tag emits a major-6 head before its inner value; floats are out of
scope of the modelled claims and refuse to serialize. -/
def encodeValue : Value → Except ErrorCode (List Nat)
  | .null => .ok [0xf6]
  | .bool b => .ok [if b then 0xf5 else 0xf4]
  | .integer z => serialize_i128 z
  | .float _ _ => .error (.message "floating-point serialization is not modelled")
  | .bytes bs => .ok (write_u64 2 bs.length ++ bs)
  | .text bs => .ok (write_u64 3 bs.length ++ bs)
  | .array xs =>
    match encodeList xs with
    | .ok body => .ok (write_u64 4 xs.length ++ body)
    | .error e => .error e
  | .map ps =>
    match encodePairs ps with
    | .ok body => .ok (write_u64 5 ps.length ++ body)
    | .error e => .error e
  | .tag t v =>
    match encodeValue v with
    | .ok body => .ok (write_u64 6 t ++ body)
    | .error e => .error e

/-- Serialization of a sequence of elements. -/
def encodeList : List Value → Except ErrorCode (List Nat)
  | [] => .ok []
  | v :: vs =>
    match encodeValue v with
    | .ok a =>
      match encodeList vs with
      | .ok b => .ok (a ++ b)
      | .error e => .error e
    | .error e => .error e

/-- Serialization of a sequence of map entries (key then value). -/
def encodePairs : List (Value × Value) → Except ErrorCode (List Nat)
  | [] => .ok []
  | (kv, vv) :: ps =>
    match encodeValue kv with
    | .ok a =>
      match encodeValue vv with
      | .ok b =>
        match encodePairs ps with
        | .ok c => .ok (a ++ b ++ c)
        | .error e => .error e
      | .error e => .error e
    | .error e => .error e

end

/-- `to_vec` (ser.rs lines 20-27) at the `Value` type. -/
def to_vec (v : Value) : Except ErrorCode (List Nat) := encodeValue v

/-! ## Measures on `Value` -/

mutual

/-- Container nesting depth of a value: each array, map or tag level —
exactly the levels on which the decoder's `recursion_checked` is
entered — counts one. -/
def valueDepth : Value → Nat
  | .array xs => 1 + depthList xs
  | .map ps => 1 + depthPairs ps
  | .tag _ v => 1 + valueDepth v
  | _ => 0

/-- Maximal depth of a list of values. -/
def depthList : List Value → Nat
  | [] => 0
  | v :: vs => max (valueDepth v) (depthList vs)

/-- Maximal depth of a list of map entries. -/
def depthPairs : List (Value × Value) → Nat
  | [] => 0
  | (kv, vv) :: ps => max (max (valueDepth kv) (valueDepth vv)) (depthPairs ps)

end

mutual

/-- The supported shapes of the round-trip claim: integers within the
CBOR-representable range `[-2^64, 2^64)`, UTF-8-valid text, lengths and
tags below `2^64` (they travel as `u64`), and no floats (fidelity of
float narrowing is outside the model). -/
def supportedV : Value → Bool
  | .null => true
  | .bool _ => true
  | .integer z => decide (-(2 ^ 64 : Int) ≤ z) && decide (z < (2 ^ 64 : Int))
  | .float _ _ => false
  | .bytes bs => decide (bs.length < 2 ^ 64)
  | .text bs => decide (bs.length < 2 ^ 64) && utf8Valid bs
  | .array xs => decide (xs.length < 2 ^ 64) && supportedList xs
  | .map ps => decide (ps.length < 2 ^ 64) && supportedPairs ps
  | .tag t v => decide (t < 2 ^ 64) && supportedV v

/-- All elements supported. -/
def supportedList : List Value → Bool
  | [] => true
  | v :: vs => supportedV v && supportedList vs

/-- All keys and values supported. -/
def supportedPairs : List (Value × Value) → Bool
  | [] => true
  | (kv, vv) :: ps => supportedV kv && supportedV vv && supportedPairs ps

end

/-- The nested-array family: `n` bytes `0x81` followed by `0x80`,
i.e. `n + 1` nested arrays. -/
def nestBytes (n : Nat) : List Nat := List.replicate n 0x81 ++ [0x80]

/-- The `n`-level nested-array value: `nestValue 1 = []`,
`nestValue (n+2) = [nestValue (n+1)]`. -/
def nestValue : Nat → Value
  | 0 => .null
  | 1 => .array []
  | n + 2 => .array [nestValue (n + 1)]


/-! ## Definitions supporting the theorems -/

/-- The spec-side width selector of the minimal-length rule: the
smallest of the widths 1, 2, 4, 8 whose range holds the value. -/
def minimalWidth (v : Nat) : Nat :=
  if v < 2 ^ 8 then 1 else if v < 2 ^ 16 then 2 else if v < 2 ^ 32 then 4 else 8

/-- Which of the mask's cases the initial byte `b` selects, read off the
arm ranges and guards of `parse_value`: major 6 (tags) carries no guard,
and the reserved gaps (e.g. additional information 28-30, the simple
values other than 20-23, the stop byte) select no case at all. -/
def enabledCase (m : ValidValues) (b : Nat) : Bool :=
  if b ≤ 0x1b then m.intPos
  else if 0x20 ≤ b ∧ b ≤ 0x3b then m.intNeg
  else if (0x40 ≤ b ∧ b ≤ 0x5b) ∨ b = 0x5f then m.bytes
  else if (0x60 ≤ b ∧ b ≤ 0x7b) ∨ b = 0x7f then m.string
  else if (0x80 ≤ b ∧ b ≤ 0x9b) ∨ b = 0x9f then m.array
  else if (0xa0 ≤ b ∧ b ≤ 0xbb) ∨ b = 0xbf then m.map
  else if 0xc0 ≤ b ∧ b ≤ 0xdb then true
  else if 0xf4 ≤ b ∧ b ≤ 0xf5 then m.bool
  else if 0xf6 ≤ b ∧ b ≤ 0xf7 then m.null
  else if 0xf9 ≤ b ∧ b ≤ 0xfb then m.float
  else false

/-- Is the result a recursion-limit error? -/
def isRecLimit {α : Type} : Except ErrorCode α → Bool
  | .error .recursionLimitExceeded => true
  | _ => false

def DepthSpec {α : Type} (s : S) (r : Except ErrorCode α × S) : Prop :=
  r.2.depth = if isRecLimit r.1 then s.depth - 1 else s.depth

/-! # Theorems -/


/-! ### Unfolding equations for the fuelled recursions -/

theorem elemsGo_zero (pv) (s : S) : elemsGo pv 0 s = (.ok [], s) := rfl

theorem elemsGo_succ (pv) (n : Nat) (s : S) :
    elemsGo pv (n + 1) s =
      (match pv s with
      | (.ok v, s1) =>
        match elemsGo pv n s1 with
        | (.ok vs, s2) => (.ok (v :: vs), s2)
        | (.error e, s2) => (.error e, s2)
      | (.error e, s1) => (.error e, s1)) := rfl

theorem indefElemsGo_zero (pv) (s : S) : indefElemsGo pv 0 s = (.error .outOfFuel, s) := rfl

theorem indefElemsGo_succ (pv) (f : Nat) (s : S) :
    indefElemsGo pv (f + 1) s =
      (match peek s with
      | none => (.error .eofWhileParsingArray, s)
      | some 0xff => (.ok [], s)
      | some _ =>
        match pv s with
        | (.ok v, s1) =>
          match indefElemsGo pv f s1 with
          | (.ok vs, s2) => (.ok (v :: vs), s2)
          | (.error e, s2) => (.error e, s2)
        | (.error e, s1) => (.error e, s1)) := rfl

theorem mapGo_zero (o pv) (s : S) : mapGo o pv 0 s = (.ok [], s) := rfl

theorem mapGo_succ (o pv) (n : Nat) (s : S) :
    mapGo o pv (n + 1) s =
      (match checkKeyShape o s with
      | some e => (.error e, s)
      | none =>
        match pv s with
        | (.ok kv, s1) =>
          match pv s1 with
          | (.ok vv, s2) =>
            match mapGo o pv n s2 with
            | (.ok ps, s3) => (.ok ((kv, vv) :: ps), s3)
            | (.error e, s3) => (.error e, s3)
          | (.error e, s2) => (.error e, s2)
        | (.error e, s1) => (.error e, s1)) := rfl

theorem indefMapGo_zero (o pv) (s : S) : indefMapGo o pv 0 s = (.error .outOfFuel, s) := rfl

theorem indefMapGo_succ (o pv) (f : Nat) (s : S) :
    indefMapGo o pv (f + 1) s =
      (match peek s with
      | none => (.error .eofWhileParsingMap, s)
      | some 0xff => (.ok [], s)
      | some _ =>
        match checkKeyShape o s with
        | some e => (.error e, s)
        | none =>
          match pv s with
          | (.ok kv, s1) =>
            match pv s1 with
            | (.ok vv, s2) =>
              match indefMapGo o pv f s2 with
              | (.ok ps, s3) => (.ok ((kv, vv) :: ps), s3)
              | (.error e, s3) => (.error e, s3)
            | (.error e, s2) => (.error e, s2)
          | (.error e, s1) => (.error e, s1)) := rfl

theorem bytesChunksGo_zero (acc : List Nat) (s : S) :
    bytesChunksGo acc 0 s = (.error .outOfFuel, s) := rfl

theorem bytesChunksGo_succ (acc : List Nat) (f : Nat) (s : S) :
    bytesChunksGo acc (f + 1) s =
      (match parse_u8 s with
      | (.error e, s1) => (.error e, s1)
      | (.ok b, s1) =>
        if 0x40 ≤ b ∧ b ≤ 0x57 then
          match read_exact (b - 0x40) s1 with
          | (.ok bs, s2) => bytesChunksGo (acc ++ bs) f s2
          | (.error e, s2) => (.error e, s2)
        else if 0x58 ≤ b ∧ b ≤ 0x5b then
          match parse_uint (b - 0x57) s1 with
          | (.ok len, s2) =>
            if len > usizeMax then (.error .lengthOutOfRange, s2)
            else
              match read_exact len s2 with
              | (.ok bs, s3) => bytesChunksGo (acc ++ bs) f s3
              | (.error e, s3) => (.error e, s3)
          | (.error e, s2) => (.error e, s2)
        else if b = 0xff then (.ok acc, s1)
        else (.error (.unexpectedCode ExpectedSet.STRING b), s1)) := rfl

theorem strChunksGo_zero (acc : List Nat) (s : S) :
    strChunksGo acc 0 s = (.error .outOfFuel, s) := rfl

theorem strChunksGo_succ (acc : List Nat) (f : Nat) (s : S) :
    strChunksGo acc (f + 1) s =
      (match parse_u8 s with
      | (.error e, s1) => (.error e, s1)
      | (.ok b, s1) =>
        if 0x60 ≤ b ∧ b ≤ 0x77 then
          match read_exact (b - 0x60) s1 with
          | (.ok bs, s2) => strChunksGo (acc ++ bs) f s2
          | (.error e, s2) => (.error e, s2)
        else if 0x78 ≤ b ∧ b ≤ 0x7b then
          match parse_uint (b - 0x77) s1 with
          | (.ok len, s2) =>
            if len > usizeMax then (.error .lengthOutOfRange, s2)
            else
              match read_exact len s2 with
              | (.ok bs, s3) => strChunksGo (acc ++ bs) f s3
              | (.error e, s3) => (.error e, s3)
          | (.error e, s2) => (.error e, s2)
        else if b = 0xff then (.ok acc, s1)
        else (.error (.unexpectedCode ExpectedSet.STRING b), s1)) := rfl

theorem parseValue_zero (o m k) (s : S) : parseValue 0 o m k s = (.error .outOfFuel, s) := rfl

theorem parseValue_succ (f : Nat) (o m k) (s : S) :
    parseValue (f + 1) o m k s = parseValueF o k (parseValue f o ValidAll k) f m s := rfl

theorem log2_one : Nat.log2 1 = 0 := by simp [Nat.log2]
theorem log2_two : Nat.log2 2 = 1 := by simp [Nat.log2]
theorem log2_four : Nat.log2 4 = 2 := by simp [Nat.log2]
theorem log2_eight : Nat.log2 8 = 3 := by simp [Nat.log2]

theorem shiftOr32 : ∀ m, m < 8 → ∀ a, a < 32 → m <<< 5 ||| a = 32 * m + a := by decide

theorem toBEBytes_length (w v : Nat) : (toBEBytes w v).length = w := by
  induction w generalizing v with
  | zero => rfl
  | succ w ih => simp [toBEBytes, ih]

theorem fromBE_append (xs : List Nat) (y : Nat) :
    fromBE (xs ++ [y]) = 256 * fromBE xs + y := by
  simp [fromBE, List.foldl_append]

theorem fromBE_toBE (w v : Nat) (h : v < 256 ^ w) : fromBE (toBEBytes w v) = v := by
  induction w generalizing v with
  | zero =>
    simp only [pow_zero, Nat.lt_one_iff] at h
    subst h; rfl
  | succ w ih =>
    rw [toBEBytes, fromBE_append, ih (v / 256) (by
      rw [Nat.div_lt_iff_lt_mul (by norm_num)]
      calc v < 256 ^ (w + 1) := h
        _ = 256 ^ w * 256 := by ring)]
    omega

/-- C3: the minimal-length head writer.  A payload up to 23 rides in
the initial byte `major <<< 5 ||| value`; otherwise the head carries
`24 + log2 w` for the smallest follow-on width `w ∈ {1, 2, 4, 8}` that
fits, followed by exactly `w` big-endian bytes recovering the payload —
and no narrower of the five length encodings fits. -/
theorem write_u64_minimal (major value : Nat) (_h8 : major < 8) (hv : value < 2 ^ 64) :
    (value ≤ 23 → write_u64 major value = [major <<< 5 ||| value]) ∧
    (23 < value →
      write_u64 major value =
        (major <<< 5 ||| (24 + Nat.log2 (minimalWidth value))) ::
          toBEBytes (minimalWidth value) value ∧
      (toBEBytes (minimalWidth value) value).length = minimalWidth value ∧
      fromBE (toBEBytes (minimalWidth value) value) = value ∧
      minimalWidth value ∈ ([1, 2, 4, 8] : List Nat) ∧
      value < 2 ^ (8 * minimalWidth value) ∧
      ∀ w ∈ ([1, 2, 4, 8] : List Nat), value < 2 ^ (8 * w) → minimalWidth value ≤ w) := by
  refine ⟨fun h => by rw [write_u64, if_pos (by omega)], fun h => ?_⟩
  by_cases c1 : value < 2 ^ 8
  · have hmw : minimalWidth value = 1 := by rw [minimalWidth, if_pos c1]
    rw [hmw, log2_one]
    refine ⟨?_, toBEBytes_length _ _, fromBE_toBE _ _ (by norm_num at c1 ⊢; omega), by simp,
      by norm_num at c1 ⊢; omega, ?_⟩
    · rw [write_u64, if_neg (by omega), if_pos (by norm_num at c1 ⊢; omega)]
    · intro w hmem _; fin_cases hmem <;> omega
  · by_cases c2 : value < 2 ^ 16
    · have hmw : minimalWidth value = 2 := by rw [minimalWidth, if_neg c1, if_pos c2]
      rw [hmw, log2_two]
      refine ⟨?_, toBEBytes_length _ _, fromBE_toBE _ _ (by norm_num at c2 ⊢; omega), by simp,
        by norm_num at c2 ⊢; omega, ?_⟩
      · rw [write_u64, if_neg (by omega), if_neg (by norm_num at c1 ⊢; omega),
          if_pos (by norm_num at c2 ⊢; omega)]
      · intro w hmem hfit; fin_cases hmem <;> norm_num at hfit c1 ⊢ <;> omega
    · by_cases c3 : value < 2 ^ 32
      · have hmw : minimalWidth value = 4 := by
          rw [minimalWidth, if_neg c1, if_neg c2, if_pos c3]
        rw [hmw, log2_four]
        refine ⟨?_, toBEBytes_length _ _, fromBE_toBE _ _ (by norm_num at c3 ⊢; omega), by simp,
          by norm_num at c3 ⊢; omega, ?_⟩
        · rw [write_u64, if_neg (by omega), if_neg (by norm_num at c1 ⊢; omega),
            if_neg (by norm_num at c2 ⊢; omega), if_pos (by norm_num at c3 ⊢; omega)]
        · intro w hmem hfit; fin_cases hmem <;> norm_num at hfit c1 c2 ⊢ <;> omega
      · have hmw : minimalWidth value = 8 := by
          rw [minimalWidth, if_neg c1, if_neg c2, if_neg c3]
        rw [hmw, log2_eight]
        refine ⟨?_, toBEBytes_length _ _, fromBE_toBE _ _ (by norm_num at hv ⊢; omega), by simp,
          by norm_num at hv ⊢; omega, ?_⟩
        · rw [write_u64, if_neg (by omega), if_neg (by norm_num at c1 ⊢; omega),
            if_neg (by norm_num at c2 ⊢; omega), if_neg (by norm_num at c3 ⊢; omega)]
        · intro w hmem hfit; fin_cases hmem <;> norm_num at hfit c1 c2 c3 ⊢ <;> omega

/-! ## Overflow of 128-bit serialization (ser.rs lines 365-377, 400-405) -/

/-- C8: 128-bit serialization overflow.  An `i128` outside
`[-2^64, 2^64)` or a `u128` at or above `2^64` fails with the overflow
message and nothing is produced; within range the head is written as
major 1 or major 0. -/
theorem serialize_128_overflow :
    (∀ z : Int, z < -(2 ^ 64) ∨ (2 ^ 64 : Int) ≤ z →
      serialize_i128 z = .error (.message "The number can't be stored in CBOR")) ∧
    (∀ z : Int, -(2 ^ 64) ≤ z → z < (2 ^ 64 : Int) →
      serialize_i128 z =
        .ok (if z < 0 then write_u64 1 (-(z + 1)).toNat else write_u64 0 z.toNat)) ∧
    (∀ n : Nat, 2 ^ 64 ≤ n →
      serialize_u128 n = .error (.message "The number can't be stored in CBOR")) ∧
    (∀ n : Nat, n < 2 ^ 64 → serialize_u128 n = .ok (write_u64 0 n)) := by
  refine ⟨fun z hz => ?_, fun z h1 h2 => ?_, fun n hn => ?_, fun n hn => ?_⟩
  · simp only [serialize_i128, u64MaxI]
    split_ifs <;> first | rfl | omega
  · simp only [serialize_i128, u64MaxI]
    split_ifs <;> first | rfl | omega
  · simp only [serialize_u128, u64MaxI]
    rw [if_pos (by push_cast; omega)]
  · simp only [serialize_u128, u64MaxI]
    rw [if_neg (by push_cast; omega)]

/-! ## Delivery of major-type-1 integers (de.rs lines 663-675) -/

/-- C7: delivery of major-1 negative integers.  The decoded magnitude
`u` is delivered as `i64 (-1 - u)` when that fits `i64` and otherwise as
`i128 (-1 - u)` untruncated; the nine-byte encoding of magnitude
`2^64 - 1` decodes to `-2^64`. -/
theorem negative_delivery :
    (∀ u : Nat, u < 2 ^ 64 →
      ((-(2 ^ 63) : Int) ≤ -1 - (u : Int) → deliverSigned u = .i64 (-1 - (u : Int))) ∧
      (-1 - (u : Int) < -(2 ^ 63) → deliverSigned u = .i128 (-1 - (u : Int)))) ∧
    from_slice [0x3b, 0xff, 0xff, 0xff, 0xff, 0xff, 0xff, 0xff, 0xff] =
      .ok (.integer (-(2 ^ 64))) := by
  refine ⟨fun u hu => ⟨fun hfit => ?_, fun hnot => ?_⟩, rfl⟩
  · rw [deliverSigned, if_neg (by unfold i64MaxU; push_cast at hfit; omega)]
  · rw [deliverSigned, if_pos (by unfold i64MaxU; push_cast at hnot; omega)]

/-! ## The mask dispatch of `parse_value` (de.rs lines 646-764) -/

/-- Falling through every arm of `parse_value` reaches the
`UnexpectedCode` catch-all carrying the active mask and the byte. -/
theorem parseValueF_catchall (o : DeserializerOptions) (k : Kind)
    (pv : S → Except ErrorCode Value × S) (lf : Nat) (m : ValidValues)
    (b : Nat) (rest : List Nat) (d : Nat)
    (h0 : ¬(b ≤ 0x1b ∧ m.intPos = true))
    (h1 : ¬((0x20 ≤ b ∧ b ≤ 0x3b) ∧ m.intNeg = true))
    (h2 : ¬(((0x40 ≤ b ∧ b ≤ 0x5b) ∨ b = 0x5f) ∧ m.bytes = true))
    (h3 : ¬(((0x60 ≤ b ∧ b ≤ 0x7b) ∨ b = 0x7f) ∧ m.string = true))
    (h4 : ¬(((0x80 ≤ b ∧ b ≤ 0x9b) ∨ b = 0x9f) ∧ m.array = true))
    (h5 : ¬(((0xa0 ≤ b ∧ b ≤ 0xbb) ∨ b = 0xbf) ∧ m.map = true))
    (h6 : ¬(0xc0 ≤ b ∧ b ≤ 0xdb))
    (h7 : ¬((0xf4 ≤ b ∧ b ≤ 0xf5) ∧ m.bool = true))
    (h8 : ¬((0xf6 ≤ b ∧ b ≤ 0xf7) ∧ m.null = true))
    (h9 : ¬((0xf9 ≤ b ∧ b ≤ 0xfb) ∧ m.float = true)) :
    parseValueF o k pv lf m ⟨b :: rest, d⟩ =
      (.error (.unexpectedCode (ExpectedSet.from_valid m) b), ⟨rest, d⟩) := by
  unfold parseValueF
  simp only [parse_u8]
  rw [if_neg h0, if_neg h1, if_neg h2, if_neg h3, if_neg h4, if_neg h5, if_neg h6,
    if_neg h7, if_neg h8, if_neg h9]

theorem unexpected_code_of_disabled (m : ValidValues) (b : Nat)
    (h : enabledCase m b = false) (o : DeserializerOptions) (k : Kind) (f : Nat)
    (rest : List Nat) (d : Nat) :
    parseValue (f + 1) o m k ⟨b :: rest, d⟩ =
      (.error (.unexpectedCode (ExpectedSet.from_valid m) b), ⟨rest, d⟩) := by
  rw [parseValue]
  apply parseValueF_catchall
  · rintro ⟨hb, hm⟩
    rw [enabledCase, if_pos hb, hm] at h
    cases h
  · rintro ⟨hb, hm⟩
    have n0 : ¬(b ≤ 0x1b) := by intro u1; omega
    rw [enabledCase, if_neg n0, if_pos hb, hm] at h
    cases h
  · rintro ⟨hb, hm⟩
    have n0 : ¬(b ≤ 0x1b) := by intro u1; omega
    have n1 : ¬(0x20 ≤ b ∧ b ≤ 0x3b) := by rintro ⟨u1, u2⟩; omega
    rw [enabledCase, if_neg n0, if_neg n1, if_pos hb, hm] at h
    cases h
  · rintro ⟨hb, hm⟩
    have n0 : ¬(b ≤ 0x1b) := by intro u1; omega
    have n1 : ¬(0x20 ≤ b ∧ b ≤ 0x3b) := by rintro ⟨u1, u2⟩; omega
    have n2 : ¬((0x40 ≤ b ∧ b ≤ 0x5b) ∨ b = 0x5f) := by rintro (⟨u1, u2⟩ | u3) <;> omega
    rw [enabledCase, if_neg n0, if_neg n1, if_neg n2, if_pos hb, hm] at h
    cases h
  · rintro ⟨hb, hm⟩
    have n0 : ¬(b ≤ 0x1b) := by intro u1; omega
    have n1 : ¬(0x20 ≤ b ∧ b ≤ 0x3b) := by rintro ⟨u1, u2⟩; omega
    have n2 : ¬((0x40 ≤ b ∧ b ≤ 0x5b) ∨ b = 0x5f) := by rintro (⟨u1, u2⟩ | u3) <;> omega
    have n3 : ¬((0x60 ≤ b ∧ b ≤ 0x7b) ∨ b = 0x7f) := by rintro (⟨u1, u2⟩ | u3) <;> omega
    rw [enabledCase, if_neg n0, if_neg n1, if_neg n2, if_neg n3, if_pos hb, hm] at h
    cases h
  · rintro ⟨hb, hm⟩
    have n0 : ¬(b ≤ 0x1b) := by intro u1; omega
    have n1 : ¬(0x20 ≤ b ∧ b ≤ 0x3b) := by rintro ⟨u1, u2⟩; omega
    have n2 : ¬((0x40 ≤ b ∧ b ≤ 0x5b) ∨ b = 0x5f) := by rintro (⟨u1, u2⟩ | u3) <;> omega
    have n3 : ¬((0x60 ≤ b ∧ b ≤ 0x7b) ∨ b = 0x7f) := by rintro (⟨u1, u2⟩ | u3) <;> omega
    have n4 : ¬((0x80 ≤ b ∧ b ≤ 0x9b) ∨ b = 0x9f) := by rintro (⟨u1, u2⟩ | u3) <;> omega
    rw [enabledCase, if_neg n0, if_neg n1, if_neg n2, if_neg n3, if_neg n4, if_pos hb, hm] at h
    cases h
  · rintro ⟨hb1, hb2⟩
    have n0 : ¬(b ≤ 0x1b) := by intro u1; omega
    have n1 : ¬(0x20 ≤ b ∧ b ≤ 0x3b) := by rintro ⟨u1, u2⟩; omega
    have n2 : ¬((0x40 ≤ b ∧ b ≤ 0x5b) ∨ b = 0x5f) := by rintro (⟨u1, u2⟩ | u3) <;> omega
    have n3 : ¬((0x60 ≤ b ∧ b ≤ 0x7b) ∨ b = 0x7f) := by rintro (⟨u1, u2⟩ | u3) <;> omega
    have n4 : ¬((0x80 ≤ b ∧ b ≤ 0x9b) ∨ b = 0x9f) := by rintro (⟨u1, u2⟩ | u3) <;> omega
    have n5 : ¬((0xa0 ≤ b ∧ b ≤ 0xbb) ∨ b = 0xbf) := by rintro (⟨u1, u2⟩ | u3) <;> omega
    rw [enabledCase, if_neg n0, if_neg n1, if_neg n2, if_neg n3, if_neg n4, if_neg n5, if_pos ⟨hb1, hb2⟩] at h
    cases h
  · rintro ⟨hb, hm⟩
    have n0 : ¬(b ≤ 0x1b) := by intro u1; omega
    have n1 : ¬(0x20 ≤ b ∧ b ≤ 0x3b) := by rintro ⟨u1, u2⟩; omega
    have n2 : ¬((0x40 ≤ b ∧ b ≤ 0x5b) ∨ b = 0x5f) := by rintro (⟨u1, u2⟩ | u3) <;> omega
    have n3 : ¬((0x60 ≤ b ∧ b ≤ 0x7b) ∨ b = 0x7f) := by rintro (⟨u1, u2⟩ | u3) <;> omega
    have n4 : ¬((0x80 ≤ b ∧ b ≤ 0x9b) ∨ b = 0x9f) := by rintro (⟨u1, u2⟩ | u3) <;> omega
    have n5 : ¬((0xa0 ≤ b ∧ b ≤ 0xbb) ∨ b = 0xbf) := by rintro (⟨u1, u2⟩ | u3) <;> omega
    have n6 : ¬(0xc0 ≤ b ∧ b ≤ 0xdb) := by rintro ⟨u1, u2⟩; omega
    rw [enabledCase, if_neg n0, if_neg n1, if_neg n2, if_neg n3, if_neg n4, if_neg n5, if_neg n6, if_pos hb, hm] at h
    cases h
  · rintro ⟨hb, hm⟩
    have n0 : ¬(b ≤ 0x1b) := by intro u1; omega
    have n1 : ¬(0x20 ≤ b ∧ b ≤ 0x3b) := by rintro ⟨u1, u2⟩; omega
    have n2 : ¬((0x40 ≤ b ∧ b ≤ 0x5b) ∨ b = 0x5f) := by rintro (⟨u1, u2⟩ | u3) <;> omega
    have n3 : ¬((0x60 ≤ b ∧ b ≤ 0x7b) ∨ b = 0x7f) := by rintro (⟨u1, u2⟩ | u3) <;> omega
    have n4 : ¬((0x80 ≤ b ∧ b ≤ 0x9b) ∨ b = 0x9f) := by rintro (⟨u1, u2⟩ | u3) <;> omega
    have n5 : ¬((0xa0 ≤ b ∧ b ≤ 0xbb) ∨ b = 0xbf) := by rintro (⟨u1, u2⟩ | u3) <;> omega
    have n6 : ¬(0xc0 ≤ b ∧ b ≤ 0xdb) := by rintro ⟨u1, u2⟩; omega
    have n7 : ¬(0xf4 ≤ b ∧ b ≤ 0xf5) := by rintro ⟨u1, u2⟩; omega
    rw [enabledCase, if_neg n0, if_neg n1, if_neg n2, if_neg n3, if_neg n4, if_neg n5, if_neg n6, if_neg n7, if_pos hb, hm] at h
    cases h
  · rintro ⟨hb, hm⟩
    have n0 : ¬(b ≤ 0x1b) := by intro u1; omega
    have n1 : ¬(0x20 ≤ b ∧ b ≤ 0x3b) := by rintro ⟨u1, u2⟩; omega
    have n2 : ¬((0x40 ≤ b ∧ b ≤ 0x5b) ∨ b = 0x5f) := by rintro (⟨u1, u2⟩ | u3) <;> omega
    have n3 : ¬((0x60 ≤ b ∧ b ≤ 0x7b) ∨ b = 0x7f) := by rintro (⟨u1, u2⟩ | u3) <;> omega
    have n4 : ¬((0x80 ≤ b ∧ b ≤ 0x9b) ∨ b = 0x9f) := by rintro (⟨u1, u2⟩ | u3) <;> omega
    have n5 : ¬((0xa0 ≤ b ∧ b ≤ 0xbb) ∨ b = 0xbf) := by rintro (⟨u1, u2⟩ | u3) <;> omega
    have n6 : ¬(0xc0 ≤ b ∧ b ≤ 0xdb) := by rintro ⟨u1, u2⟩; omega
    have n7 : ¬(0xf4 ≤ b ∧ b ≤ 0xf5) := by rintro ⟨u1, u2⟩; omega
    have n8 : ¬(0xf6 ≤ b ∧ b ≤ 0xf7) := by rintro ⟨u1, u2⟩; omega
    rw [enabledCase, if_neg n0, if_neg n1, if_neg n2, if_neg n3, if_neg n4, if_neg n5, if_neg n6, if_neg n7, if_neg n8, if_pos hb, hm] at h
    cases h

/-! ## Indefinite-string chunk discipline (de.rs lines 427-449, 480-502) -/

/-- C6: chunk discipline inside indefinite-length strings.  Every
chunk head must be a definite-length head of the same major type; any
other byte — a nested `0x7f` included — stops the loop at once with
`UnexpectedCode(STRING, byte)`, as on the claim's
`[0x7f, 0x7f, 0xff, 0xff]`. -/
theorem indefinite_chunk_head_check :
    (∀ b f rest d acc, ¬(0x60 ≤ b ∧ b ≤ 0x7b) → b ≠ 0xff →
      strChunksGo acc (f + 1) ⟨b :: rest, d⟩ =
        (.error (.unexpectedCode ExpectedSet.STRING b), ⟨rest, d⟩)) ∧
    (∀ b f rest d acc, ¬(0x40 ≤ b ∧ b ≤ 0x5b) → b ≠ 0xff →
      bytesChunksGo acc (f + 1) ⟨b :: rest, d⟩ =
        (.error (.unexpectedCode ExpectedSet.STRING b), ⟨rest, d⟩)) ∧
    from_slice [0x7f, 0x7f, 0xff, 0xff] = .error (.unexpectedCode ExpectedSet.STRING 0x7f) := by
  refine ⟨fun b f rest d acc h1 h2 => ?_, fun b f rest d acc h1 h2 => ?_, rfl⟩
  · have hA : ¬(0x60 ≤ b ∧ b ≤ 0x77) := by omega
    have hB : ¬(0x78 ≤ b ∧ b ≤ 0x7b) := by omega
    rw [strChunksGo_succ]
    simp only [parse_u8]
    rw [if_neg hA, if_neg hB, if_neg h2]
  · have hA : ¬(0x40 ≤ b ∧ b ≤ 0x57) := by omega
    have hB : ¬(0x58 ≤ b ∧ b ≤ 0x5b) := by omega
    rw [bytesChunksGo_succ]
    simp only [parse_u8]
    rw [if_neg hA, if_neg hB, if_neg h2]

/-! ## The key-shape gate of map decoding (de.rs lines 1143-1177) -/

theorem mapGo_rejects_packed_key (o : DeserializerOptions) (b : Nat)
    (hp : o.accept_packed = false) (hb : b ≤ 0x1b)
    (pv : S → Except ErrorCode Value × S) (n f : Nat) (rest : List Nat) (d : Nat) :
    mapGo o pv (n + 1) ⟨b :: rest, d⟩ = (.error .wrongStructFormat, ⟨b :: rest, d⟩) ∧
    indefMapGo o pv (f + 1) ⟨b :: rest, d⟩ = (.error .wrongStructFormat, ⟨b :: rest, d⟩) := by
  have hck : checkKeyShape o ⟨b :: rest, d⟩ = some .wrongStructFormat := by
    rw [checkKeyShape, if_pos (Or.inr hp)]
    simp only [peek, List.head?]
    rw [if_pos ⟨hb, hp⟩]
  constructor
  · rw [mapGo_succ, hck]
  · rw [indefMapGo_succ]
    simp only [peek, List.head?]
    split
    · simp_all
    · next heq => rw [Option.some.injEq] at heq; omega
    · rw [hck]

theorem mapGo_rejects_named_key (o : DeserializerOptions) (b : Nat)
    (hn : o.accept_named = false) (hb1 : 0x60 ≤ b) (hb2 : b ≤ 0x7f)
    (pv : S → Except ErrorCode Value × S) (n f : Nat) (rest : List Nat) (d : Nat) :
    mapGo o pv (n + 1) ⟨b :: rest, d⟩ = (.error .wrongStructFormat, ⟨b :: rest, d⟩) ∧
    indefMapGo o pv (f + 1) ⟨b :: rest, d⟩ = (.error .wrongStructFormat, ⟨b :: rest, d⟩) := by
  have hck : checkKeyShape o ⟨b :: rest, d⟩ = some .wrongStructFormat := by
    rw [checkKeyShape, if_pos (Or.inl hn)]
    simp only [peek, List.head?]
    rw [if_neg (by rintro ⟨hc, _⟩; omega), if_pos ⟨⟨hb1, hb2⟩, hn⟩]
  constructor
  · rw [mapGo_succ, hck]
  · rw [indefMapGo_succ]
    simp only [peek, List.head?]
    split
    · simp_all
    · next heq => rw [Option.some.injEq] at heq; omega
    · rw [hck]

/-! ## Source-kind transparency: the slice and the stream provider give
the decoder the same bytes, differing only in the borrowed/transient
flavor, which the `Value` visitor's paired callbacks treat alike. -/

theorem visitBytes_flavor (fl : Flavor) (bs : List Nat) :
    visitBytes fl bs = .bytes bs := by cases fl <;> rfl

theorem visitStr_flavor (fl : Flavor) (bs : List Nat) :
    visitStr fl bs = if utf8Valid bs then .ok (.text bs) else .error .invalidUtf8 := by
  cases fl <;> rfl

theorem readBytesItem_kind (k : Kind) (len : Nat) (s : S) :
    readBytesItem k len s = readBytesItem .slice len s := by
  unfold readBytesItem readn
  by_cases h : len ≤ s.inp.length
  · rw [if_pos h, if_pos h]
    simp only [visitBytes_flavor]
  · rw [if_neg h, if_neg h]

theorem readStrItem_kind (k : Kind) (len : Nat) (s : S) :
    readStrItem k len s = readStrItem .slice len s := by
  unfold readStrItem readn
  by_cases h : len ≤ s.inp.length
  · rw [if_pos h, if_pos h]
    simp only [visitStr_flavor]
  · rw [if_neg h, if_neg h]

theorem parseValueF_kind (o : DeserializerOptions) (k : Kind)
    (pv : S → Except ErrorCode Value × S) (lf : Nat) (m : ValidValues) (s : S) :
    parseValueF o k pv lf m s = parseValueF o .slice pv lf m s := by
  simp only [parseValueF, readBytesItem_kind, readStrItem_kind]

theorem parseValue_kind (f : Nat) (o : DeserializerOptions) (m : ValidValues)
    (k : Kind) (s : S) : parseValue f o m k s = parseValue f o m .slice s := by
  induction f generalizing m s with
  | zero => rfl
  | succ f ih =>
    rw [parseValue_succ, parseValue_succ]
    have hpv : parseValue f o ValidAll k = parseValue f o ValidAll .slice :=
      funext fun s => ih ValidAll s
    rw [hpv]
    exact parseValueF_kind o k _ f m s

theorem deserializeWith_kind (o : DeserializerOptions) (k : Kind) (bs : List Nat) :
    deserializeWith o k bs = deserializeWith o .slice bs := by
  unfold deserializeWith
  rw [parseValue_kind]

/-! ## Depth accounting (for the `recursion_checked` claims):
a call leaves `remaining_depth` unchanged unless it propagates a
recursion-limit error, in which case exactly one decrement survives (the
`recursion_checked` frame that hit the limit returns early without
restoring, de.rs lines 530-533). -/

theorem isRecLimit_ok {α : Type} (v : α) : isRecLimit (.ok v) = false := rfl

theorem isRecLimit_error_iff (e : ErrorCode) :
    isRecLimit (Except.error (α := α) e) = true ↔ e = .recursionLimitExceeded := by
  cases e <;> simp [isRecLimit]

theorem isRecLimit_error {α : Type} (e : ErrorCode) :
    isRecLimit (Except.error (α := α) e) = decide (e = .recursionLimitExceeded) := by
  cases e <;> simp [isRecLimit]

theorem parse_u8_depth (s : S) :
    (parse_u8 s).2.depth = s.depth ∧ (parse_u8 s).1 ≠ .error .recursionLimitExceeded := by
  obtain ⟨i, d⟩ := s
  cases i <;> simp [parse_u8]

theorem read_into_depth (n : Nat) (s : S) :
    (read_into n s).2.depth = s.depth ∧ (read_into n s).1 ≠ .error .recursionLimitExceeded := by
  unfold read_into
  split <;> simp

theorem read_exact_depth (n : Nat) (s : S) :
    (read_exact n s).2.depth = s.depth ∧ (read_exact n s).1 ≠ .error .recursionLimitExceeded := by
  unfold read_exact
  split <;> simp

theorem readn_depth (k : Kind) (n : Nat) (s : S) :
    (readn k n s).2.depth = s.depth ∧ (readn k n s).1 ≠ .error .recursionLimitExceeded := by
  unfold readn
  split <;> simp

theorem parse_uint_depth (mag : Nat) (s : S) :
    (parse_uint mag s).2.depth = s.depth ∧
      (parse_uint mag s).1 ≠ .error .recursionLimitExceeded := by
  unfold parse_uint
  have h := read_into_depth (1 <<< (mag - 1)) s
  rcases hr : read_into (1 <<< (mag - 1)) s with ⟨r, s1⟩
  rw [hr] at h
  cases r <;> simp_all

theorem parse_float_depth (mag : Nat) (s : S) :
    (parse_float mag s).2.depth = s.depth ∧
      (parse_float mag s).1 ≠ .error .recursionLimitExceeded := by
  unfold parse_float
  have h := read_into_depth (1 <<< (mag - 1)) s
  rcases hr : read_into (1 <<< (mag - 1)) s with ⟨r, s1⟩
  rw [hr] at h
  cases r <;> simp_all

theorem parseLen_depth (base b : Nat) (s : S) :
    (parseLen base b s).2.depth = s.depth ∧
      (parseLen base b s).1 ≠ .error .recursionLimitExceeded := by
  unfold parseLen
  split
  · simp
  · have h := parse_uint_depth (b - (base + 0x17)) s
    rcases hr : parse_uint (b - (base + 0x17)) s with ⟨r, s1⟩
    rw [hr] at h
    cases r <;> simp_all

theorem readBytesItem_depth (k : Kind) (len : Nat) (s : S) :
    (readBytesItem k len s).2.depth = s.depth ∧
      (readBytesItem k len s).1 ≠ .error .recursionLimitExceeded := by
  unfold readBytesItem
  have h := readn_depth k len s
  split <;> rename_i heq <;> rw [heq] at h <;> simp_all

theorem readStrItem_depth (k : Kind) (len : Nat) (s : S) :
    (readStrItem k len s).2.depth = s.depth ∧
      (readStrItem k len s).1 ≠ .error .recursionLimitExceeded := by
  unfold readStrItem
  have h := readn_depth k len s
  split <;> rename_i heq <;> rw [heq] at h
  · rw [visitStr_flavor]
    split_ifs <;> simp_all
  · simp_all

theorem strChunksGo_depth (f : Nat) : ∀ (acc : List Nat) (s : S),
    (strChunksGo acc f s).2.depth = s.depth ∧
      (strChunksGo acc f s).1 ≠ .error .recursionLimitExceeded := by
  induction f with
  | zero => intro acc s; simp [strChunksGo_zero]
  | succ f ih =>
    intro acc s
    rw [strChunksGo_succ]
    have hp := parse_u8_depth s
    rcases h8 : parse_u8 s with ⟨r, s1⟩
    rw [h8] at hp
    rcases r with e | b
    · simp_all
    · simp only []
      split_ifs with c1 c2 c3
      · have he := read_exact_depth (b - 0x60) s1
        rcases hre : read_exact (b - 0x60) s1 with ⟨r2, s2⟩
        rw [hre] at he
        rcases r2 with e | bs
        · simp_all
        · have := ih (acc ++ bs) s2
          simp_all
      · have hu := parse_uint_depth (b - 0x77) s1
        rcases hru : parse_uint (b - 0x77) s1 with ⟨r2, s2⟩
        rw [hru] at hu
        rcases r2 with e | len
        · simp_all
        · simp only []
          split_ifs with c4
          · simp_all
          · have he := read_exact_depth len s2
            rcases hre : read_exact len s2 with ⟨r3, s3⟩
            rw [hre] at he
            rcases r3 with e | bs
            · simp_all
            · have := ih (acc ++ bs) s3
              simp_all
      · simp_all
      · simp_all

theorem bytesChunksGo_depth (f : Nat) : ∀ (acc : List Nat) (s : S),
    (bytesChunksGo acc f s).2.depth = s.depth ∧
      (bytesChunksGo acc f s).1 ≠ .error .recursionLimitExceeded := by
  induction f with
  | zero => intro acc s; simp [bytesChunksGo_zero]
  | succ f ih =>
    intro acc s
    rw [bytesChunksGo_succ]
    have hp := parse_u8_depth s
    rcases h8 : parse_u8 s with ⟨r, s1⟩
    rw [h8] at hp
    rcases r with e | b
    · simp_all
    · simp only []
      split_ifs with c1 c2 c3
      · have he := read_exact_depth (b - 0x40) s1
        rcases hre : read_exact (b - 0x40) s1 with ⟨r2, s2⟩
        rw [hre] at he
        rcases r2 with e | bs
        · simp_all
        · have := ih (acc ++ bs) s2
          simp_all
      · have hu := parse_uint_depth (b - 0x57) s1
        rcases hru : parse_uint (b - 0x57) s1 with ⟨r2, s2⟩
        rw [hru] at hu
        rcases r2 with e | len
        · simp_all
        · simp only []
          split_ifs with c4
          · simp_all
          · have he := read_exact_depth len s2
            rcases hre : read_exact len s2 with ⟨r3, s3⟩
            rw [hre] at he
            rcases r3 with e | bs
            · simp_all
            · have := ih (acc ++ bs) s3
              simp_all
      · simp_all
      · simp_all

theorem checkKeyShape_some (o : DeserializerOptions) (s : S) (e : ErrorCode)
    (h : checkKeyShape o s = some e) : e = .wrongStructFormat := by
  unfold checkKeyShape at h
  by_cases hc : o.accept_named = false ∨ o.accept_packed = false
  · rw [if_pos hc] at h
    rcases hpk : peek s with _ | b
    · rw [hpk] at h; cases h
    · rw [hpk] at h
      dsimp only at h
      split_ifs at h <;> simp_all
  · rw [if_neg hc] at h; cases h

theorem elemsGo_depth (pv : S → Except ErrorCode Value × S)
    (hpv : ∀ s, DepthSpec s (pv s)) :
    ∀ (n : Nat) (s : S), DepthSpec s (elemsGo pv n s) := by
  intro n
  induction n with
  | zero => intro s; simp [elemsGo_zero, DepthSpec, isRecLimit]
  | succ n ih =>
    intro s
    have h1 := hpv s
    unfold DepthSpec at h1 ⊢
    rw [elemsGo_succ]
    rcases hp : pv s with ⟨r1, s1⟩
    rw [hp] at h1
    dsimp only at h1
    rcases r1 with e | v
    · dsimp only
      rw [isRecLimit_error] at h1 ⊢
      exact h1
    · rw [isRecLimit_ok, if_neg (by simp)] at h1
      dsimp only
      have ih2 := ih s1
      unfold DepthSpec at ih2
      rcases h2 : elemsGo pv n s1 with ⟨r2, s2⟩
      rw [h2] at ih2
      dsimp only at ih2
      rcases r2 with e | vs <;> dsimp only <;> simpa [h1, isRecLimit_error] using ih2

theorem indefElemsGo_depth (pv : S → Except ErrorCode Value × S)
    (hpv : ∀ s, DepthSpec s (pv s)) :
    ∀ (f : Nat) (s : S), DepthSpec s (indefElemsGo pv f s) := by
  intro f
  induction f with
  | zero => intro s; simp [indefElemsGo_zero, DepthSpec, isRecLimit]
  | succ f ih =>
    intro s
    unfold DepthSpec
    rw [indefElemsGo_succ]
    split
    · simp [isRecLimit]
    · simp [isRecLimit]
    · have h1 := hpv s
      unfold DepthSpec at h1
      rcases hp : pv s with ⟨r1, s1⟩
      rw [hp] at h1
      dsimp only at h1
      rcases r1 with e | v
      · dsimp only
        rw [isRecLimit_error] at h1 ⊢
        exact h1
      · rw [isRecLimit_ok, if_neg (by simp)] at h1
        dsimp only
        have ih2 := ih s1
        unfold DepthSpec at ih2
        rcases h2 : indefElemsGo pv f s1 with ⟨r2, s2⟩
        rw [h2] at ih2
        dsimp only at ih2
        rcases r2 with e | vs <;> dsimp only <;> simpa [h1, isRecLimit_error] using ih2

theorem mapGo_depth (o : DeserializerOptions) (pv : S → Except ErrorCode Value × S)
    (hpv : ∀ s, DepthSpec s (pv s)) :
    ∀ (n : Nat) (s : S), DepthSpec s (mapGo o pv n s) := by
  intro n
  induction n with
  | zero => intro s; simp [mapGo_zero, DepthSpec, isRecLimit]
  | succ n ih =>
    intro s
    unfold DepthSpec
    rw [mapGo_succ]
    rcases hck : checkKeyShape o s with _ | e
    · dsimp only
      have h1 := hpv s
      unfold DepthSpec at h1
      rcases hp : pv s with ⟨r1, s1⟩
      rw [hp] at h1
      dsimp only at h1
      rcases r1 with e | kv
      · dsimp only
        rw [isRecLimit_error] at h1 ⊢
        exact h1
      · rw [isRecLimit_ok, if_neg (by simp)] at h1
        dsimp only
        have h2 := hpv s1
        unfold DepthSpec at h2
        rcases hp2 : pv s1 with ⟨r2, s2⟩
        rw [hp2] at h2
        dsimp only at h2
        rcases r2 with e | vv
        · dsimp only
          simpa [h1, isRecLimit_error] using h2
        · rw [isRecLimit_ok, if_neg (by simp)] at h2
          dsimp only
          have ih3 := ih s2
          unfold DepthSpec at ih3
          rcases h3 : mapGo o pv n s2 with ⟨r3, s3⟩
          rw [h3] at ih3
          dsimp only at ih3
          rcases r3 with e | ps <;> dsimp only <;> simpa [h1, h2, isRecLimit_error] using ih3
    · have := checkKeyShape_some o s e hck
      subst this
      simp [isRecLimit]

theorem indefMapGo_depth (o : DeserializerOptions) (pv : S → Except ErrorCode Value × S)
    (hpv : ∀ s, DepthSpec s (pv s)) :
    ∀ (f : Nat) (s : S), DepthSpec s (indefMapGo o pv f s) := by
  intro f
  induction f with
  | zero => intro s; simp [indefMapGo_zero, DepthSpec, isRecLimit]
  | succ f ih =>
    intro s
    unfold DepthSpec
    rw [indefMapGo_succ]
    split
    · simp [isRecLimit]
    · simp [isRecLimit]
    · rcases hck : checkKeyShape o s with _ | e
      · dsimp only
        have h1 := hpv s
        unfold DepthSpec at h1
        rcases hp : pv s with ⟨r1, s1⟩
        rw [hp] at h1
        dsimp only at h1
        rcases r1 with e | kv
        · dsimp only
          rw [isRecLimit_error] at h1 ⊢
          exact h1
        · rw [isRecLimit_ok, if_neg (by simp)] at h1
          dsimp only
          have h2 := hpv s1
          unfold DepthSpec at h2
          rcases hp2 : pv s1 with ⟨r2, s2⟩
          rw [hp2] at h2
          dsimp only at h2
          rcases r2 with e | vv
          · dsimp only
            simpa [h1, isRecLimit_error] using h2
          · rw [isRecLimit_ok, if_neg (by simp)] at h2
            dsimp only
            have ih3 := ih s2
            unfold DepthSpec at ih3
            rcases h3 : indefMapGo o pv f s2 with ⟨r3, s3⟩
            rw [h3] at ih3
            dsimp only at ih3
            rcases r3 with e | ps <;> dsimp only <;> simpa [h1, h2, isRecLimit_error] using ih3
      · have := checkKeyShape_some o s e hck
        subst this
        simp [isRecLimit]

theorem recursion_checked_depth {α : Type} (s : S) (body : S → Except ErrorCode α × S)
    (hbody : ∀ s1, DepthSpec s1 (body s1)) : DepthSpec s (recursion_checked s body) := by
  obtain ⟨i, d⟩ := s
  unfold recursion_checked DepthSpec
  dsimp only
  by_cases hz : d - 1 = 0
  · rw [if_pos hz]
    simp [isRecLimit]
  · rw [if_neg hz]
    have hb := hbody ⟨i, d - 1⟩
    unfold DepthSpec at hb
    rcases hbb : body ⟨i, d - 1⟩ with ⟨r, s2⟩
    rw [hbb] at hb
    dsimp only at hb ⊢
    by_cases hr : isRecLimit r = true
    · rw [if_pos hr] at hb ⊢
      omega
    · rw [if_neg hr] at hb ⊢
      omega

theorem depthspec_pure {α : Type} (s s2 : S) (v : α) (h : s2.depth = s.depth) :
    DepthSpec s (.ok v, s2) := by simp [DepthSpec, isRecLimit_ok, h]

theorem depthspec_error {α : Type} (s s2 : S) (e : ErrorCode) (h : s2.depth = s.depth)
    (hne : e ≠ .recursionLimitExceeded) :
    DepthSpec s ((Except.error e : Except ErrorCode α), s2) := by
  simp [DepthSpec, isRecLimit_error, hne, h]

theorem depthspec_mono {α : Type} (s1 s : S) (h : s1.depth = s.depth)
    (out : Except ErrorCode α × S) : DepthSpec s1 out → DepthSpec s out := by
  unfold DepthSpec
  rw [h]
  exact id

theorem depthspec_error_retype {α β : Type} (s s2 : S) (e : ErrorCode)
    (h : DepthSpec s ((Except.error e : Except ErrorCode α), s2)) :
    DepthSpec s ((Except.error e : Except ErrorCode β), s2) := by
  unfold DepthSpec at *
  simpa [isRecLimit_error] using h

theorem depthspec_of_preserving {α : Type} (s : S) (out : Except ErrorCode α × S)
    (h1 : out.2.depth = s.depth) (h2 : out.1 ≠ .error .recursionLimitExceeded) :
    DepthSpec s out := by
  rcases out with ⟨r, s2⟩
  rcases r with e | v
  · exact depthspec_error s s2 e h1 (by simpa using h2)
  · exact depthspec_pure s s2 v h1

theorem next_depth (s : S) : (next s).2.depth = s.depth := by
  obtain ⟨i, d⟩ := s
  cases i <;> simp [next]

theorem parseValueF_depth (o : DeserializerOptions) (k : Kind)
    (pv : S → Except ErrorCode Value × S) (lf : Nat)
    (hpv : ∀ s, DepthSpec s (pv s)) (m : ValidValues) (s : S) :
    DepthSpec s (parseValueF o k pv lf m s) := by
  unfold parseValueF
  have h8 := parse_u8_depth s
  rcases hp8 : parse_u8 s with ⟨r0, s0⟩
  rw [hp8] at h8
  rcases r0 with e | b
  · dsimp only
    exact depthspec_error s s0 e h8.1 (by simpa using h8.2)
  · replace h8 : s0.depth = s.depth := h8.1
    dsimp only
    by_cases c0 : b ≤ 0x1b ∧ m.intPos = true
    · rw [if_pos c0]
      have hl := parseLen_depth 0x00 b s0
      rcases hpl : parseLen 0x00 b s0 with ⟨r1, s1⟩
      rw [hpl] at hl
      rcases r1 with e | u
      · dsimp only
        exact depthspec_error s s1 e (hl.1.trans h8) (by simpa using hl.2)
      · dsimp only
        exact depthspec_pure s s1 _ (hl.1.trans h8)
    · rw [if_neg c0]
      by_cases c1 : (0x20 ≤ b ∧ b ≤ 0x3b) ∧ m.intNeg = true
      · rw [if_pos c1]
        by_cases c1a : b ≤ 0x37
        · rw [if_pos c1a]
          exact depthspec_pure s s0 _ h8
        · rw [if_neg c1a]
          have hu := parse_uint_depth (b - 0x37) s0
          rcases hru : parse_uint (b - 0x37) s0 with ⟨r1, s1⟩
          rw [hru] at hu
          rcases r1 with e | u
          · dsimp only
            exact depthspec_error s s1 e (hu.1.trans h8) (by simpa using hu.2)
          · dsimp only
            exact depthspec_pure s s1 _ (hu.1.trans h8)
      · rw [if_neg c1]
        by_cases c2 : ((0x40 ≤ b ∧ b ≤ 0x5b) ∨ b = 0x5f) ∧ m.bytes = true
        · rw [if_pos c2]
          by_cases c2a : b = 0x5f
          · rw [if_pos c2a]
            have hc := bytesChunksGo_depth lf [] s0
            rcases hcb : bytesChunksGo [] lf s0 with ⟨r1, s1⟩
            rw [hcb] at hc
            rcases r1 with e | bs
            · dsimp only
              exact depthspec_error s s1 e (hc.1.trans h8) (by simpa using hc.2)
            · dsimp only
              exact depthspec_pure s s1 _ (hc.1.trans h8)
          · rw [if_neg c2a]
            have hl := parseLen_depth 0x40 b s0
            rcases hpl : parseLen 0x40 b s0 with ⟨r1, s1⟩
            rw [hpl] at hl
            rcases r1 with e | len
            · dsimp only
              exact depthspec_error s s1 e (hl.1.trans h8) (by simpa using hl.2)
            · dsimp only
              split_ifs with hus
              · exact depthspec_error s s1 _ (hl.1.trans h8) (by simp)
              · exact depthspec_mono s1 s (hl.1.trans h8) _
                  (depthspec_of_preserving s1 _ (readBytesItem_depth k len s1).1
                    (readBytesItem_depth k len s1).2)
        · rw [if_neg c2]
          by_cases c3 : ((0x60 ≤ b ∧ b ≤ 0x7b) ∨ b = 0x7f) ∧ m.string = true
          · rw [if_pos c3]
            by_cases c3a : b = 0x7f
            · rw [if_pos c3a]
              have hc := strChunksGo_depth lf [] s0
              rcases hcs : strChunksGo [] lf s0 with ⟨r1, s1⟩
              rw [hcs] at hc
              rcases r1 with e | bs
              · dsimp only
                exact depthspec_error s s1 e (hc.1.trans h8) (by simpa using hc.2)
              · dsimp only
                rw [visitStr_flavor]
                split_ifs with hutf
                · exact depthspec_pure s s1 _ (hc.1.trans h8)
                · exact depthspec_error s s1 _ (hc.1.trans h8) (by simp)
            · rw [if_neg c3a]
              have hl := parseLen_depth 0x60 b s0
              rcases hpl : parseLen 0x60 b s0 with ⟨r1, s1⟩
              rw [hpl] at hl
              rcases r1 with e | len
              · dsimp only
                exact depthspec_error s s1 e (hl.1.trans h8) (by simpa using hl.2)
              · dsimp only
                split_ifs with hus
                · exact depthspec_error s s1 _ (hl.1.trans h8) (by simp)
                · exact depthspec_mono s1 s (hl.1.trans h8) _
                    (depthspec_of_preserving s1 _ (readStrItem_depth k len s1).1
                      (readStrItem_depth k len s1).2)
          · rw [if_neg c3]
            by_cases c4 : ((0x80 ≤ b ∧ b ≤ 0x9b) ∨ b = 0x9f) ∧ m.array = true
            · rw [if_pos c4]
              by_cases c4a : b = 0x9f
              · rw [if_pos c4a]
                refine depthspec_mono s0 s h8 _ ?_
                apply recursion_checked_depth
                intro s1
                have he := indefElemsGo_depth pv hpv lf s1
                rcases h3 : indefElemsGo pv lf s1 with ⟨r3, s3⟩
                rw [h3] at he
                rcases r3 with e | vs
                · dsimp only
                  exact depthspec_error_retype s1 s3 e he
                · dsimp only
                  unfold DepthSpec at he
                  rw [isRecLimit_ok, if_neg (by simp)] at he
                  have hn := next_depth s3
                  rcases hnn : next s3 with ⟨ob, s4⟩
                  rw [hnn] at hn
                  rcases ob with _ | bb
                  · dsimp only
                    exact depthspec_error s1 s4 _ (hn.trans he) (by simp)
                  · split <;> simp_all [DepthSpec, isRecLimit]
              · rw [if_neg c4a]
                have hl := parseLen_depth 0x80 b s0
                rcases hpl : parseLen 0x80 b s0 with ⟨r1, s1⟩
                rw [hpl] at hl
                rcases r1 with e | len
                · dsimp only
                  exact depthspec_error s s1 e (hl.1.trans h8) (by simpa using hl.2)
                · dsimp only
                  split_ifs with hus
                  · exact depthspec_error s s1 _ (hl.1.trans h8) (by simp)
                  · refine depthspec_mono s1 s (hl.1.trans h8) _ ?_
                    apply recursion_checked_depth
                    intro s2
                    have he := elemsGo_depth pv hpv len s2
                    rcases h3 : elemsGo pv len s2 with ⟨r3, s3⟩
                    rw [h3] at he
                    rcases r3 with e | vs
                    · dsimp only
                      exact depthspec_error_retype s2 s3 e he
                    · dsimp only
                      unfold DepthSpec at he
                      rw [isRecLimit_ok, if_neg (by simp)] at he
                      exact depthspec_pure s2 s3 _ he
            · rw [if_neg c4]
              by_cases c5 : ((0xa0 ≤ b ∧ b ≤ 0xbb) ∨ b = 0xbf) ∧ m.map = true
              · rw [if_pos c5]
                by_cases c5a : b = 0xbf
                · rw [if_pos c5a]
                  refine depthspec_mono s0 s h8 _ ?_
                  apply recursion_checked_depth
                  intro s1
                  have he := indefMapGo_depth o pv hpv lf s1
                  rcases h3 : indefMapGo o pv lf s1 with ⟨r3, s3⟩
                  rw [h3] at he
                  rcases r3 with e | ps
                  · dsimp only
                    exact depthspec_error_retype s1 s3 e he
                  · dsimp only
                    unfold DepthSpec at he
                    rw [isRecLimit_ok, if_neg (by simp)] at he
                    have hn := next_depth s3
                    rcases hnn : next s3 with ⟨ob, s4⟩
                    rw [hnn] at hn
                    rcases ob with _ | bb
                    · dsimp only
                      exact depthspec_error s1 s4 _ (hn.trans he) (by simp)
                    · split <;> simp_all [DepthSpec, isRecLimit]
                · rw [if_neg c5a]
                  have hl := parseLen_depth 0xa0 b s0
                  rcases hpl : parseLen 0xa0 b s0 with ⟨r1, s1⟩
                  rw [hpl] at hl
                  rcases r1 with e | len
                  · dsimp only
                    exact depthspec_error s s1 e (hl.1.trans h8) (by simpa using hl.2)
                  · dsimp only
                    split_ifs with hus
                    · exact depthspec_error s s1 _ (hl.1.trans h8) (by simp)
                    · refine depthspec_mono s1 s (hl.1.trans h8) _ ?_
                      apply recursion_checked_depth
                      intro s2
                      have he := mapGo_depth o pv hpv len s2
                      rcases h3 : mapGo o pv len s2 with ⟨r3, s3⟩
                      rw [h3] at he
                      rcases r3 with e | ps
                      · dsimp only
                        exact depthspec_error_retype s2 s3 e he
                      · dsimp only
                        unfold DepthSpec at he
                        rw [isRecLimit_ok, if_neg (by simp)] at he
                        exact depthspec_pure s2 s3 _ he
              · rw [if_neg c5]
                by_cases c6 : 0xc0 ≤ b ∧ b ≤ 0xdb
                · rw [if_pos c6]
                  have hl := parseLen_depth 0xc0 b s0
                  rcases hpl : parseLen 0xc0 b s0 with ⟨r1, s1⟩
                  rw [hpl] at hl
                  rcases r1 with e | t
                  · dsimp only
                    exact depthspec_error s s1 e (hl.1.trans h8) (by simpa using hl.2)
                  · dsimp only
                    refine depthspec_mono s1 s (hl.1.trans h8) _ ?_
                    apply recursion_checked_depth
                    intro s2
                    have hv := hpv s2
                    rcases hp : pv s2 with ⟨r3, s3⟩
                    rw [hp] at hv
                    rcases r3 with e | v
                    · dsimp only
                      exact hv
                    · dsimp only
                      unfold DepthSpec at hv ⊢
                      rw [isRecLimit_ok, if_neg (by simp)] at hv
                      rw [isRecLimit_ok, if_neg (by simp)]
                      exact hv
                · rw [if_neg c6]
                  by_cases c7 : (0xf4 ≤ b ∧ b ≤ 0xf5) ∧ m.bool = true
                  · rw [if_pos c7]
                    exact depthspec_pure s s0 _ h8
                  · rw [if_neg c7]
                    by_cases c8 : (0xf6 ≤ b ∧ b ≤ 0xf7) ∧ m.null = true
                    · rw [if_pos c8]
                      exact depthspec_pure s s0 _ h8
                    · rw [if_neg c8]
                      by_cases c9 : (0xf9 ≤ b ∧ b ≤ 0xfb) ∧ m.float = true
                      · rw [if_pos c9]
                        exact depthspec_mono s0 s h8 _
                          (depthspec_of_preserving s0 _ (parse_float_depth (b - 0xf9 + 2) s0).1
                            (parse_float_depth (b - 0xf9 + 2) s0).2)
                      · rw [if_neg c9]
                        exact depthspec_error s s0 _ h8 (by simp)

theorem parseValue_depth (f : Nat) : ∀ (o : DeserializerOptions) (m : ValidValues)
    (k : Kind) (s : S), DepthSpec s (parseValue f o m k s) := by
  induction f with
  | zero => intro o m k s; simp [parseValue_zero, DepthSpec, isRecLimit]
  | succ f ih =>
    intro o m k s
    rw [parseValue_succ]
    exact parseValueF_depth o k _ f (fun s1 => ih o ValidAll k s1) m s

/-! ## `WrongStructFormat` provenance: with both key formats accepted,
the key-shape gate is disabled and no decoder path produces
`WrongStructFormat`. -/

theorem checkKeyShape_none (o : DeserializerOptions) (s : S)
    (h1 : o.accept_named = true) (h2 : o.accept_packed = true) :
    checkKeyShape o s = none := by
  unfold checkKeyShape
  rw [if_neg (by simp [h1, h2])]

theorem parse_u8_nwsf (s : S) : (parse_u8 s).1 ≠ .error .wrongStructFormat := by
  obtain ⟨i, d⟩ := s
  cases i <;> simp [parse_u8]

theorem read_into_nwsf (n : Nat) (s : S) :
    (read_into n s).1 ≠ .error .wrongStructFormat := by
  unfold read_into
  split <;> simp

theorem read_exact_nwsf (n : Nat) (s : S) :
    (read_exact n s).1 ≠ .error .wrongStructFormat := by
  unfold read_exact
  split <;> simp

theorem readn_nwsf (k : Kind) (n : Nat) (s : S) :
    (readn k n s).1 ≠ .error .wrongStructFormat := by
  unfold readn
  split <;> simp

theorem parse_uint_nwsf (mag : Nat) (s : S) :
    (parse_uint mag s).1 ≠ .error .wrongStructFormat := by
  unfold parse_uint
  have h := read_into_nwsf (1 <<< (mag - 1)) s
  rcases hr : read_into (1 <<< (mag - 1)) s with ⟨r, s1⟩
  rw [hr] at h
  cases r <;> simp_all

theorem parse_float_nwsf (mag : Nat) (s : S) :
    (parse_float mag s).1 ≠ .error .wrongStructFormat := by
  unfold parse_float
  have h := read_into_nwsf (1 <<< (mag - 1)) s
  rcases hr : read_into (1 <<< (mag - 1)) s with ⟨r, s1⟩
  rw [hr] at h
  cases r <;> simp_all

theorem parseLen_nwsf (base b : Nat) (s : S) :
    (parseLen base b s).1 ≠ .error .wrongStructFormat := by
  unfold parseLen
  split
  · simp
  · have h := parse_uint_nwsf (b - (base + 0x17)) s
    rcases hr : parse_uint (b - (base + 0x17)) s with ⟨r, s1⟩
    rw [hr] at h
    cases r <;> simp_all

theorem readBytesItem_nwsf (k : Kind) (len : Nat) (s : S) :
    (readBytesItem k len s).1 ≠ .error .wrongStructFormat := by
  unfold readBytesItem
  have h := readn_nwsf k len s
  split <;> rename_i heq <;> rw [heq] at h <;> simp_all

theorem readStrItem_nwsf (k : Kind) (len : Nat) (s : S) :
    (readStrItem k len s).1 ≠ .error .wrongStructFormat := by
  unfold readStrItem
  have h := readn_nwsf k len s
  split <;> rename_i heq <;> rw [heq] at h
  · rw [visitStr_flavor]
    split_ifs <;> simp_all
  · simp_all

theorem strChunksGo_nwsf (f : Nat) : ∀ (acc : List Nat) (s : S),
    (strChunksGo acc f s).1 ≠ .error .wrongStructFormat := by
  induction f with
  | zero => intro acc s; simp [strChunksGo_zero]
  | succ f ih =>
    intro acc s
    rw [strChunksGo_succ]
    have hp := parse_u8_nwsf s
    rcases h8 : parse_u8 s with ⟨r, s1⟩
    rw [h8] at hp
    rcases r with e | b
    · simp_all
    · simp only []
      split_ifs with c1 c2 c3
      · have he := read_exact_nwsf (b - 0x60) s1
        rcases hre : read_exact (b - 0x60) s1 with ⟨r2, s2⟩
        rw [hre] at he
        rcases r2 with e | bs
        · simp_all
        · have := ih (acc ++ bs) s2
          simp_all
      · have hu := parse_uint_nwsf (b - 0x77) s1
        rcases hru : parse_uint (b - 0x77) s1 with ⟨r2, s2⟩
        rw [hru] at hu
        rcases r2 with e | len
        · simp_all
        · simp only []
          split_ifs with c4
          · simp_all
          · have he := read_exact_nwsf len s2
            rcases hre : read_exact len s2 with ⟨r3, s3⟩
            rw [hre] at he
            rcases r3 with e | bs
            · simp_all
            · have := ih (acc ++ bs) s3
              simp_all
      · simp_all
      · simp_all

theorem bytesChunksGo_nwsf (f : Nat) : ∀ (acc : List Nat) (s : S),
    (bytesChunksGo acc f s).1 ≠ .error .wrongStructFormat := by
  induction f with
  | zero => intro acc s; simp [bytesChunksGo_zero]
  | succ f ih =>
    intro acc s
    rw [bytesChunksGo_succ]
    have hp := parse_u8_nwsf s
    rcases h8 : parse_u8 s with ⟨r, s1⟩
    rw [h8] at hp
    rcases r with e | b
    · simp_all
    · simp only []
      split_ifs with c1 c2 c3
      · have he := read_exact_nwsf (b - 0x40) s1
        rcases hre : read_exact (b - 0x40) s1 with ⟨r2, s2⟩
        rw [hre] at he
        rcases r2 with e | bs
        · simp_all
        · have := ih (acc ++ bs) s2
          simp_all
      · have hu := parse_uint_nwsf (b - 0x57) s1
        rcases hru : parse_uint (b - 0x57) s1 with ⟨r2, s2⟩
        rw [hru] at hu
        rcases r2 with e | len
        · simp_all
        · simp only []
          split_ifs with c4
          · simp_all
          · have he := read_exact_nwsf len s2
            rcases hre : read_exact len s2 with ⟨r3, s3⟩
            rw [hre] at he
            rcases r3 with e | bs
            · simp_all
            · have := ih (acc ++ bs) s3
              simp_all
      · simp_all
      · simp_all

theorem elemsGo_nwsf (pv : S → Except ErrorCode Value × S)
    (hpv : ∀ s, (pv s).1 ≠ .error .wrongStructFormat) :
    ∀ (n : Nat) (s : S), (elemsGo pv n s).1 ≠ .error .wrongStructFormat := by
  intro n
  induction n with
  | zero => intro s; simp [elemsGo_zero]
  | succ n ih =>
    intro s
    rw [elemsGo_succ]
    have h1 := hpv s
    rcases hp : pv s with ⟨r1, s1⟩
    rw [hp] at h1
    rcases r1 with e | v
    · simp_all
    · have h2 := ih s1
      rcases he : elemsGo pv n s1 with ⟨r2, s2⟩
      rw [he] at h2
      rcases r2 with e | vs <;> simp_all

theorem indefElemsGo_nwsf (pv : S → Except ErrorCode Value × S)
    (hpv : ∀ s, (pv s).1 ≠ .error .wrongStructFormat) :
    ∀ (f : Nat) (s : S), (indefElemsGo pv f s).1 ≠ .error .wrongStructFormat := by
  intro f
  induction f with
  | zero => intro s; simp [indefElemsGo_zero]
  | succ f ih =>
    intro s
    rw [indefElemsGo_succ]
    split
    · simp
    · simp
    · have h1 := hpv s
      rcases hp : pv s with ⟨r1, s1⟩
      rw [hp] at h1
      rcases r1 with e | v
      · simp_all
      · have h2 := ih s1
        rcases he : indefElemsGo pv f s1 with ⟨r2, s2⟩
        rw [he] at h2
        rcases r2 with e | vs <;> simp_all

theorem mapGo_nwsf (o : DeserializerOptions) (pv : S → Except ErrorCode Value × S)
    (ho1 : o.accept_named = true) (ho2 : o.accept_packed = true)
    (hpv : ∀ s, (pv s).1 ≠ .error .wrongStructFormat) :
    ∀ (n : Nat) (s : S), (mapGo o pv n s).1 ≠ .error .wrongStructFormat := by
  intro n
  induction n with
  | zero => intro s; simp [mapGo_zero]
  | succ n ih =>
    intro s
    rw [mapGo_succ, checkKeyShape_none o s ho1 ho2]
    have h1 := hpv s
    rcases hp : pv s with ⟨r1, s1⟩
    rw [hp] at h1
    rcases r1 with e | kv
    · simp_all
    · have h2 := hpv s1
      rcases hp2 : pv s1 with ⟨r2, s2⟩
      rw [hp2] at h2
      rcases r2 with e | vv
      · simp_all
      · have h3 := ih s2
        rcases hm : mapGo o pv n s2 with ⟨r3, s3⟩
        rw [hm] at h3
        rcases r3 with e | ps <;> simp_all

theorem indefMapGo_nwsf (o : DeserializerOptions) (pv : S → Except ErrorCode Value × S)
    (ho1 : o.accept_named = true) (ho2 : o.accept_packed = true)
    (hpv : ∀ s, (pv s).1 ≠ .error .wrongStructFormat) :
    ∀ (f : Nat) (s : S), (indefMapGo o pv f s).1 ≠ .error .wrongStructFormat := by
  intro f
  induction f with
  | zero => intro s; simp [indefMapGo_zero]
  | succ f ih =>
    intro s
    rw [indefMapGo_succ]
    split
    · simp
    · simp
    · rw [checkKeyShape_none o s ho1 ho2]
      have h1 := hpv s
      rcases hp : pv s with ⟨r1, s1⟩
      rw [hp] at h1
      rcases r1 with e | kv
      · simp_all
      · have h2 := hpv s1
        rcases hp2 : pv s1 with ⟨r2, s2⟩
        rw [hp2] at h2
        rcases r2 with e | vv
        · simp_all
        · have h3 := ih s2
          rcases hm : indefMapGo o pv f s2 with ⟨r3, s3⟩
          rw [hm] at h3
          rcases r3 with e | ps <;> simp_all

theorem recursion_checked_nwsf {α : Type} (s : S) (body : S → Except ErrorCode α × S)
    (hbody : ∀ s1, (body s1).1 ≠ .error .wrongStructFormat) :
    (recursion_checked s body).1 ≠ .error .wrongStructFormat := by
  unfold recursion_checked
  dsimp only
  split_ifs
  · simp
  · have hb := hbody { s with depth := s.depth - 1 }
    rcases hbb : body { s with depth := s.depth - 1 } with ⟨r, s2⟩
    rw [hbb] at hb
    simp_all

theorem parseValueF_nwsf (o : DeserializerOptions) (k : Kind)
    (pv : S → Except ErrorCode Value × S) (lf : Nat)
    (ho1 : o.accept_named = true) (ho2 : o.accept_packed = true)
    (hpv : ∀ s, (pv s).1 ≠ .error .wrongStructFormat) (m : ValidValues) (s : S) :
    (parseValueF o k pv lf m s).1 ≠ .error .wrongStructFormat := by
  unfold parseValueF
  have h8 := parse_u8_nwsf s
  rcases hp8 : parse_u8 s with ⟨r0, s0⟩
  rw [hp8] at h8
  rcases r0 with e | b
  · simp_all
  · dsimp only
    by_cases c0 : b ≤ 0x1b ∧ m.intPos = true
    · rw [if_pos c0]
      have hl := parseLen_nwsf 0x00 b s0
      rcases hpl : parseLen 0x00 b s0 with ⟨r1, s1⟩
      rw [hpl] at hl
      rcases r1 with e | u <;> simp_all
    · rw [if_neg c0]
      by_cases c1 : (0x20 ≤ b ∧ b ≤ 0x3b) ∧ m.intNeg = true
      · rw [if_pos c1]
        by_cases c1a : b ≤ 0x37
        · rw [if_pos c1a]
          simp
        · rw [if_neg c1a]
          have hu := parse_uint_nwsf (b - 0x37) s0
          rcases hru : parse_uint (b - 0x37) s0 with ⟨r1, s1⟩
          rw [hru] at hu
          rcases r1 with e | u <;> simp_all
      · rw [if_neg c1]
        by_cases c2 : ((0x40 ≤ b ∧ b ≤ 0x5b) ∨ b = 0x5f) ∧ m.bytes = true
        · rw [if_pos c2]
          by_cases c2a : b = 0x5f
          · rw [if_pos c2a]
            have hc := bytesChunksGo_nwsf lf [] s0
            rcases hcb : bytesChunksGo [] lf s0 with ⟨r1, s1⟩
            rw [hcb] at hc
            rcases r1 with e | bs <;> simp_all
          · rw [if_neg c2a]
            have hl := parseLen_nwsf 0x40 b s0
            rcases hpl : parseLen 0x40 b s0 with ⟨r1, s1⟩
            rw [hpl] at hl
            rcases r1 with e | len
            · simp_all
            · dsimp only
              split_ifs with hus
              · simp
              · exact readBytesItem_nwsf k len s1
        · rw [if_neg c2]
          by_cases c3 : ((0x60 ≤ b ∧ b ≤ 0x7b) ∨ b = 0x7f) ∧ m.string = true
          · rw [if_pos c3]
            by_cases c3a : b = 0x7f
            · rw [if_pos c3a]
              have hc := strChunksGo_nwsf lf [] s0
              rcases hcs : strChunksGo [] lf s0 with ⟨r1, s1⟩
              rw [hcs] at hc
              rcases r1 with e | bs
              · simp_all
              · dsimp only
                rw [visitStr_flavor]
                split_ifs with hutf <;> simp
            · rw [if_neg c3a]
              have hl := parseLen_nwsf 0x60 b s0
              rcases hpl : parseLen 0x60 b s0 with ⟨r1, s1⟩
              rw [hpl] at hl
              rcases r1 with e | len
              · simp_all
              · dsimp only
                split_ifs with hus
                · simp
                · exact readStrItem_nwsf k len s1
          · rw [if_neg c3]
            by_cases c4 : ((0x80 ≤ b ∧ b ≤ 0x9b) ∨ b = 0x9f) ∧ m.array = true
            · rw [if_pos c4]
              by_cases c4a : b = 0x9f
              · rw [if_pos c4a]
                apply recursion_checked_nwsf
                intro s1
                have he := indefElemsGo_nwsf pv hpv lf s1
                rcases h3 : indefElemsGo pv lf s1 with ⟨r3, s3⟩
                rw [h3] at he
                rcases r3 with e | vs
                · simp_all
                · dsimp only
                  rcases hnn : next s3 with ⟨ob, s4⟩
                  rcases ob with _ | bb
                  · simp
                  · split <;> simp
              · rw [if_neg c4a]
                have hl := parseLen_nwsf 0x80 b s0
                rcases hpl : parseLen 0x80 b s0 with ⟨r1, s1⟩
                rw [hpl] at hl
                rcases r1 with e | len
                · simp_all
                · dsimp only
                  split_ifs with hus
                  · simp
                  · apply recursion_checked_nwsf
                    intro s2
                    have he := elemsGo_nwsf pv hpv len s2
                    rcases h3 : elemsGo pv len s2 with ⟨r3, s3⟩
                    rw [h3] at he
                    rcases r3 with e | vs <;> simp_all
            · rw [if_neg c4]
              by_cases c5 : ((0xa0 ≤ b ∧ b ≤ 0xbb) ∨ b = 0xbf) ∧ m.map = true
              · rw [if_pos c5]
                by_cases c5a : b = 0xbf
                · rw [if_pos c5a]
                  apply recursion_checked_nwsf
                  intro s1
                  have he := indefMapGo_nwsf o pv ho1 ho2 hpv lf s1
                  rcases h3 : indefMapGo o pv lf s1 with ⟨r3, s3⟩
                  rw [h3] at he
                  rcases r3 with e | ps
                  · simp_all
                  · dsimp only
                    rcases hnn : next s3 with ⟨ob, s4⟩
                    rcases ob with _ | bb
                    · simp
                    · split <;> simp
                · rw [if_neg c5a]
                  have hl := parseLen_nwsf 0xa0 b s0
                  rcases hpl : parseLen 0xa0 b s0 with ⟨r1, s1⟩
                  rw [hpl] at hl
                  rcases r1 with e | len
                  · simp_all
                  · dsimp only
                    split_ifs with hus
                    · simp
                    · apply recursion_checked_nwsf
                      intro s2
                      have he := mapGo_nwsf o pv ho1 ho2 hpv len s2
                      rcases h3 : mapGo o pv len s2 with ⟨r3, s3⟩
                      rw [h3] at he
                      rcases r3 with e | ps <;> simp_all
              · rw [if_neg c5]
                by_cases c6 : 0xc0 ≤ b ∧ b ≤ 0xdb
                · rw [if_pos c6]
                  have hl := parseLen_nwsf 0xc0 b s0
                  rcases hpl : parseLen 0xc0 b s0 with ⟨r1, s1⟩
                  rw [hpl] at hl
                  rcases r1 with e | t
                  · simp_all
                  · dsimp only
                    apply recursion_checked_nwsf
                    intro s2
                    have hv := hpv s2
                    rcases hp : pv s2 with ⟨r3, s3⟩
                    rw [hp] at hv
                    rcases r3 with e | v <;> simp_all
                · rw [if_neg c6]
                  by_cases c7 : (0xf4 ≤ b ∧ b ≤ 0xf5) ∧ m.bool = true
                  · rw [if_pos c7]
                    simp
                  · rw [if_neg c7]
                    by_cases c8 : (0xf6 ≤ b ∧ b ≤ 0xf7) ∧ m.null = true
                    · rw [if_pos c8]
                      simp
                    · rw [if_neg c8]
                      by_cases c9 : (0xf9 ≤ b ∧ b ≤ 0xfb) ∧ m.float = true
                      · rw [if_pos c9]
                        exact parse_float_nwsf (b - 0xf9 + 2) s0
                      · rw [if_neg c9]
                        simp

theorem parseValue_nwsf (f : Nat) : ∀ (o : DeserializerOptions) (m : ValidValues)
    (k : Kind) (s : S), o.accept_named = true → o.accept_packed = true →
    (parseValue f o m k s).1 ≠ .error .wrongStructFormat := by
  induction f with
  | zero => intro o m k s _ _; simp [parseValue_zero]
  | succ f ih =>
    intro o m k s ho1 ho2
    rw [parseValue_succ]
    exact parseValueF_nwsf o k _ f ho1 ho2 (fun s1 => ih o ValidAll k s1 ho1 ho2) m s

theorem deserializeWith_nwsf (o : DeserializerOptions) (k : Kind) (bs : List Nat)
    (ho1 : o.accept_named = true) (ho2 : o.accept_packed = true) :
    deserializeWith o k bs ≠ .error .wrongStructFormat := by
  unfold deserializeWith
  have h := parseValue_nwsf (bs.length + 2) o ValidAll k ⟨bs, 128⟩ ho1 ho2
  rcases hp : parseValue (bs.length + 2) o ValidAll k ⟨bs, 128⟩ with ⟨r, s⟩
  rw [hp] at h
  rcases r with e | v
  · simp_all
  · dsimp only
    rcases hn : next s with ⟨ob, s2⟩
    rcases ob with _ | b <;> simp

theorem isRecLimit_false_of_ne {α : Type} (r : Except ErrorCode α)
    (h : r ≠ .error .recursionLimitExceeded) : isRecLimit r = false := by
  rcases r with e | v
  · rw [isRecLimit_error, decide_eq_false_iff_not]
    intro he
    exact h (by rw [he])
  · rfl

/-! ## Claim theorems (C2, C9, C10) -/

/-- C2: decoding a byte sequence through the copying stream provider
(`from_reader`) and through the borrowing slice provider (`from_slice`)
gives identical results — the same Ok/Err classification and, on
success, the same value. -/
theorem fuzz_equivalence (bs : List Nat) : from_reader bs = from_slice bs := by
  unfold from_reader from_slice
  exact deserializeWith_kind defaultOptions .reader bs

/-- C9: the key-shape gate of map decoding.  (a) With `accept_packed`
disabled, a peeked key whose initial byte is a major-0 head
(`0x00..=0x1b`) makes both map entry loops return `WrongStructFormat`
with the state untouched — the key is not consumed.  (b) Symmetrically
with `accept_named` disabled and a key byte in `0x60..=0x7f`.  (c) With
both formats accepted no decode ever returns `WrongStructFormat`. -/
theorem wrong_struct_format_key_gate :
    (∀ (o : DeserializerOptions) (b : Nat), o.accept_packed = false → b ≤ 0x1b →
      ∀ (pv : S → Except ErrorCode Value × S) (n f : Nat) (rest : List Nat) (d : Nat),
        mapGo o pv (n + 1) ⟨b :: rest, d⟩ = (.error .wrongStructFormat, ⟨b :: rest, d⟩) ∧
        indefMapGo o pv (f + 1) ⟨b :: rest, d⟩ =
          (.error .wrongStructFormat, ⟨b :: rest, d⟩)) ∧
    (∀ (o : DeserializerOptions) (b : Nat), o.accept_named = false →
      0x60 ≤ b → b ≤ 0x7f →
      ∀ (pv : S → Except ErrorCode Value × S) (n f : Nat) (rest : List Nat) (d : Nat),
        mapGo o pv (n + 1) ⟨b :: rest, d⟩ = (.error .wrongStructFormat, ⟨b :: rest, d⟩) ∧
        indefMapGo o pv (f + 1) ⟨b :: rest, d⟩ =
          (.error .wrongStructFormat, ⟨b :: rest, d⟩)) ∧
    (∀ (o : DeserializerOptions) (k : Kind) (bs : List Nat),
      o.accept_named = true → o.accept_packed = true →
      deserializeWith o k bs ≠ .error .wrongStructFormat) :=
  ⟨fun o b hp hb pv n f rest d => mapGo_rejects_packed_key o b hp hb pv n f rest d,
   fun o b hn hb1 hb2 pv n f rest d => mapGo_rejects_named_key o b hn hb1 hb2 pv n f rest d,
   fun o k bs ho1 ho2 => deserializeWith_nwsf o k bs ho1 ho2⟩

/-- Witness for C9: the integer key `0x00` under disabled `accept_packed`
and the text key `0x61` under disabled `accept_named` are rejected with
the state untouched, while a one-entry map with an integer key decodes
under the default options without `WrongStructFormat`. -/
theorem wrong_struct_format_key_gate_witness :
    mapGo { accept_packed := false } (parseValue 1 defaultOptions ValidAll .slice) 1
        ⟨[0x00], 8⟩ = (.error .wrongStructFormat, ⟨[0x00], 8⟩) ∧
    mapGo { accept_named := false } (parseValue 1 defaultOptions ValidAll .slice) 1
        ⟨[0x61], 8⟩ = (.error .wrongStructFormat, ⟨[0x61], 8⟩) ∧
    from_slice [0xa1, 0x00, 0x00] ≠ .error .wrongStructFormat :=
  ⟨(wrong_struct_format_key_gate.1 { accept_packed := false } 0x00 rfl (by norm_num)
      (parseValue 1 defaultOptions ValidAll .slice) 0 0 [] 8).1,
   (wrong_struct_format_key_gate.2.1 { accept_named := false } 0x61 rfl (by norm_num)
      (by norm_num) (parseValue 1 defaultOptions ValidAll .slice) 0 0 [] 8).1,
   wrong_struct_format_key_gate.2.2 defaultOptions .slice [0xa1, 0x00, 0x00] rfl rfl⟩

/-- C10 (amended): depth restoration around `recursion_checked`.  When
the limit is not hit on entry, the wrapper restores `remaining_depth`
after the inner closure — but only the results that do not propagate a
recursion-limit error come back at the entry depth: a propagated
`RecursionLimitExceeded` keeps exactly one unrestored decrement (de.rs
lines 530-533 return early), so the depth comes back one lower.  Stated
for the wrapper under the decoder's depth discipline and for every
`parse_value` call. -/
theorem recursion_depth_restoration :
    (∀ {α : Type} (s : S) (body : S → Except ErrorCode α × S),
      (∀ s1, DepthSpec s1 (body s1)) →
      ((recursion_checked s body).1 ≠ .error .recursionLimitExceeded →
        (recursion_checked s body).2.depth = s.depth) ∧
      ((recursion_checked s body).1 = .error .recursionLimitExceeded →
        (recursion_checked s body).2.depth = s.depth - 1)) ∧
    (∀ (f : Nat) (o : DeserializerOptions) (m : ValidValues) (k : Kind) (s : S),
      ((parseValue f o m k s).1 ≠ .error .recursionLimitExceeded →
        (parseValue f o m k s).2.depth = s.depth) ∧
      ((parseValue f o m k s).1 = .error .recursionLimitExceeded →
        (parseValue f o m k s).2.depth = s.depth - 1)) := by
  constructor
  · intro a s body hbody
    have h := recursion_checked_depth s body hbody
    unfold DepthSpec at h
    constructor
    · intro hne
      rw [isRecLimit_false_of_ne _ hne] at h
      simpa using h
    · intro he
      rw [he] at h
      rw [isRecLimit_error] at h
      simpa using h
  · intro f o m k s
    have h := parseValue_depth f o m k s
    unfold DepthSpec at h
    constructor
    · intro hne
      rw [isRecLimit_false_of_ne _ hne] at h
      simpa using h
    · intro he
      rw [he] at h
      rw [isRecLimit_error] at h
      simpa using h

/-- Witness for C10: a successful `parse_value` of `0x00` from depth 5
comes back at depth 5. -/
theorem recursion_depth_restoration_witness :
    (parseValue 2 defaultOptions ValidAll .slice ⟨[0x00], 5⟩).2.depth = 5 :=
  (recursion_depth_restoration.2 2 defaultOptions ValidAll .slice ⟨[0x00], 5⟩).1
    (by simp [show (parseValue 2 defaultOptions ValidAll .slice ⟨[0x00], 5⟩).1 =
      .ok (.integer 0) from rfl])

/-- Counterexample to C10 as stated: from depth 2, `recursion_checked`
does invoke its closure (the decremented depth 1 is nonzero), the inner
parse of `[0x81, 0x80]` hits the limit one level further down, and the
depth after the call is 1, not the entry depth 2 — the claim's "whether
the inner parse succeeded or returned an error" fails on the
recursion-limit error itself. -/
theorem recursion_depth_restoration_counterexample :
    (2 : Nat) - 1 ≠ 0 ∧
    (recursion_checked ⟨[0x81, 0x80], 2⟩
        (fun s1 => parseValue 4 defaultOptions ValidAll .slice s1)).1 =
      .error .recursionLimitExceeded ∧
    (recursion_checked ⟨[0x81, 0x80], 2⟩
        (fun s1 => parseValue 4 defaultOptions ValidAll .slice s1)).2.depth = 1 :=
  ⟨by decide, rfl, rfl⟩

/-! ## Arm selection of `parse_value` under the permissive mask: with a
head byte in a major's range, the `match` of de.rs lines 654-747 enters
that major's arm.  The ranges are disjoint, so each lemma just
discharges the earlier arms' conditions. -/

theorem parseValueF_major0 (o : DeserializerOptions) (k : Kind)
    (pv : S → Except ErrorCode Value × S) (lf : Nat) (b : Nat) (hb : b ≤ 0x1b)
    (tl : List Nat) (d : Nat) :
    parseValueF o k pv lf ValidAll ⟨b :: tl, d⟩ =
      match parseLen 0x00 b ⟨tl, d⟩ with
      | (.ok u, s1) => (.ok (.integer u), s1)
      | (.error e, s1) => (.error e, s1) := by
  unfold parseValueF
  simp only [parse_u8]
  rw [if_pos ⟨hb, rfl⟩]

theorem parseValueF_major1 (o : DeserializerOptions) (k : Kind)
    (pv : S → Except ErrorCode Value × S) (lf : Nat) (b : Nat)
    (hb1 : 0x20 ≤ b) (hb2 : b ≤ 0x3b) (tl : List Nat) (d : Nat) :
    parseValueF o k pv lf ValidAll ⟨b :: tl, d⟩ =
      if b ≤ 0x37 then (.ok (Value.ofSigned (.i64 (-1 - ((b - 0x20 : Nat) : Int)))), ⟨tl, d⟩)
      else
        match parse_uint (b - 0x37) ⟨tl, d⟩ with
        | (.ok u, s1) => (.ok (Value.ofSigned (deliverSigned u)), s1)
        | (.error e, s1) => (.error e, s1) := by
  unfold parseValueF
  simp only [parse_u8]
  rw [if_neg (by rintro ⟨h, _⟩; omega), if_pos ⟨⟨hb1, hb2⟩, rfl⟩]

theorem parseValueF_major2 (o : DeserializerOptions) (k : Kind)
    (pv : S → Except ErrorCode Value × S) (lf : Nat) (b : Nat)
    (hb1 : 0x40 ≤ b) (hb2 : b ≤ 0x5b) (tl : List Nat) (d : Nat) :
    parseValueF o k pv lf ValidAll ⟨b :: tl, d⟩ =
      match parseLen 0x40 b ⟨tl, d⟩ with
      | (.ok len, s1) =>
        if len > usizeMax then (.error .lengthOutOfRange, s1)
        else readBytesItem k len s1
      | (.error e, s1) => (.error e, s1) := by
  unfold parseValueF
  simp only [parse_u8]
  rw [if_neg (by rintro ⟨h, _⟩; omega), if_neg (by rintro ⟨⟨h1, h2⟩, _⟩; omega),
    if_pos ⟨Or.inl ⟨hb1, hb2⟩, rfl⟩, if_neg (by omega)]

theorem parseValueF_major3 (o : DeserializerOptions) (k : Kind)
    (pv : S → Except ErrorCode Value × S) (lf : Nat) (b : Nat)
    (hb1 : 0x60 ≤ b) (hb2 : b ≤ 0x7b) (tl : List Nat) (d : Nat) :
    parseValueF o k pv lf ValidAll ⟨b :: tl, d⟩ =
      match parseLen 0x60 b ⟨tl, d⟩ with
      | (.ok len, s1) =>
        if len > usizeMax then (.error .lengthOutOfRange, s1)
        else readStrItem k len s1
      | (.error e, s1) => (.error e, s1) := by
  unfold parseValueF
  simp only [parse_u8]
  rw [if_neg (by rintro ⟨h, _⟩; omega), if_neg (by rintro ⟨⟨h1, h2⟩, _⟩; omega),
    if_neg (by rintro ⟨h, _⟩; rcases h with ⟨h1, h2⟩ | h1 <;> omega),
    if_pos ⟨Or.inl ⟨hb1, hb2⟩, rfl⟩, if_neg (by omega)]

theorem parseValueF_major4 (o : DeserializerOptions) (k : Kind)
    (pv : S → Except ErrorCode Value × S) (lf : Nat) (b : Nat)
    (hb1 : 0x80 ≤ b) (hb2 : b ≤ 0x9b) (tl : List Nat) (d : Nat) :
    parseValueF o k pv lf ValidAll ⟨b :: tl, d⟩ =
      match parseLen 0x80 b ⟨tl, d⟩ with
      | (.ok len, s1) =>
        if len > usizeMax then (.error .lengthOutOfRange, s1)
        else
          recursion_checked s1 (fun s2 =>
            match elemsGo pv len s2 with
            | (.ok vs, s3) => (.ok (.array vs), s3)
            | (.error e, s3) => (.error e, s3))
      | (.error e, s1) => (.error e, s1) := by
  unfold parseValueF
  simp only [parse_u8]
  rw [if_neg (by rintro ⟨h, _⟩; omega), if_neg (by rintro ⟨⟨h1, h2⟩, _⟩; omega),
    if_neg (by rintro ⟨h, _⟩; rcases h with ⟨h1, h2⟩ | h1 <;> omega),
    if_neg (by rintro ⟨h, _⟩; rcases h with ⟨h1, h2⟩ | h1 <;> omega),
    if_pos ⟨Or.inl ⟨hb1, hb2⟩, rfl⟩, if_neg (by omega)]

theorem parseValueF_major5 (o : DeserializerOptions) (k : Kind)
    (pv : S → Except ErrorCode Value × S) (lf : Nat) (b : Nat)
    (hb1 : 0xa0 ≤ b) (hb2 : b ≤ 0xbb) (tl : List Nat) (d : Nat) :
    parseValueF o k pv lf ValidAll ⟨b :: tl, d⟩ =
      match parseLen 0xa0 b ⟨tl, d⟩ with
      | (.ok len, s1) =>
        if len > usizeMax then (.error .lengthOutOfRange, s1)
        else
          recursion_checked s1 (fun s2 =>
            match mapGo o pv len s2 with
            | (.ok ps, s3) => (.ok (.map ps), s3)
            | (.error e, s3) => (.error e, s3))
      | (.error e, s1) => (.error e, s1) := by
  unfold parseValueF
  simp only [parse_u8]
  rw [if_neg (by rintro ⟨h, _⟩; omega), if_neg (by rintro ⟨⟨h1, h2⟩, _⟩; omega),
    if_neg (by rintro ⟨h, _⟩; rcases h with ⟨h1, h2⟩ | h1 <;> omega),
    if_neg (by rintro ⟨h, _⟩; rcases h with ⟨h1, h2⟩ | h1 <;> omega),
    if_neg (by rintro ⟨h, _⟩; rcases h with ⟨h1, h2⟩ | h1 <;> omega),
    if_pos ⟨Or.inl ⟨hb1, hb2⟩, rfl⟩, if_neg (by omega)]

theorem parseValueF_major6 (o : DeserializerOptions) (k : Kind)
    (pv : S → Except ErrorCode Value × S) (lf : Nat) (b : Nat)
    (hb1 : 0xc0 ≤ b) (hb2 : b ≤ 0xdb) (tl : List Nat) (d : Nat) :
    parseValueF o k pv lf ValidAll ⟨b :: tl, d⟩ =
      match parseLen 0xc0 b ⟨tl, d⟩ with
      | (.ok t, s1) =>
        recursion_checked s1 (fun s2 =>
          match pv s2 with
          | (.ok v, s3) => (.ok (.tag t v), s3)
          | (.error e, s3) => (.error e, s3))
      | (.error e, s1) => (.error e, s1) := by
  unfold parseValueF
  simp only [parse_u8]
  rw [if_neg (by rintro ⟨h, _⟩; omega), if_neg (by rintro ⟨⟨h1, h2⟩, _⟩; omega),
    if_neg (by rintro ⟨h, _⟩; rcases h with ⟨h1, h2⟩ | h1 <;> omega),
    if_neg (by rintro ⟨h, _⟩; rcases h with ⟨h1, h2⟩ | h1 <;> omega),
    if_neg (by rintro ⟨h, _⟩; rcases h with ⟨h1, h2⟩ | h1 <;> omega),
    if_neg (by rintro ⟨h, _⟩; rcases h with ⟨h1, h2⟩ | h1 <;> omega),
    if_pos ⟨hb1, hb2⟩]

/-! ## The nested-array family (the recursion-limit boundary) -/

theorem parseValue_nest : ∀ (n f d : Nat) (rest : List Nat), n + 2 ≤ f → 1 ≤ d →
    parseValue f defaultOptions ValidAll .slice ⟨List.replicate n 0x81 ++ 0x80 :: rest, d⟩ =
      if n + 1 < d then (.ok (nestValue (n + 1)), ⟨rest, d⟩)
      else (.error .recursionLimitExceeded,
            ⟨List.drop d (List.replicate n 0x81 ++ 0x80 :: rest), d - 1⟩) := by
  intro n
  induction n with
  | zero =>
    intro f d rest hf hd
    obtain ⟨f1, rfl⟩ : ∃ f1, f = f1 + 1 := ⟨f - 1, by omega⟩
    obtain ⟨d1, rfl⟩ : ∃ d1, d = d1 + 1 := ⟨d - 1, by omega⟩
    rw [parseValue_succ, List.replicate_zero, List.nil_append,
      parseValueF_major4 _ _ _ _ 0x80 (by norm_num) (by norm_num),
      show parseLen 0x80 0x80 ⟨rest, d1 + 1⟩ = (.ok 0, ⟨rest, d1 + 1⟩) from by
        rw [parseLen, if_pos (by norm_num)]]
    dsimp only
    rw [if_neg (by decide)]
    unfold recursion_checked
    dsimp only
    simp only [Nat.add_sub_cancel]
    by_cases hz : d1 = 0
    · subst hz
      rw [if_pos rfl, if_neg (by omega)]
      simp
    · rw [if_neg hz, elemsGo_zero]
      dsimp only
      rw [if_pos (by omega)]
      simp [nestValue]
  | succ n ih =>
    intro f d rest hf hd
    obtain ⟨f1, rfl⟩ : ∃ f1, f = f1 + 1 := ⟨f - 1, by omega⟩
    obtain ⟨d1, rfl⟩ : ∃ d1, d = d1 + 1 := ⟨d - 1, by omega⟩
    rw [parseValue_succ, List.replicate_succ, List.cons_append,
      parseValueF_major4 _ _ _ _ 0x81 (by norm_num) (by norm_num),
      show parseLen 0x80 0x81 ⟨List.replicate n 0x81 ++ 0x80 :: rest, d1 + 1⟩ =
          (.ok 1, ⟨List.replicate n 0x81 ++ 0x80 :: rest, d1 + 1⟩) from by
        rw [parseLen, if_pos (by norm_num)]]
    dsimp only
    rw [if_neg (by decide)]
    unfold recursion_checked
    dsimp only
    simp only [Nat.add_sub_cancel]
    by_cases hz : d1 = 0
    · subst hz
      rw [if_pos rfl, if_neg (by omega)]
      simp
    · rw [if_neg hz, elemsGo_succ, ih f1 d1 rest (by omega) (by omega)]
      by_cases hlt : n + 1 < d1
      · rw [if_pos hlt]
        dsimp only
        rw [elemsGo_zero]
        dsimp only
        rw [if_pos (by omega)]
        simp [nestValue]
      · rw [if_neg hlt]
        dsimp only
        rw [if_neg (by omega)]
        simp only [Prod.mk.injEq, S.mk.injEq, List.drop_succ_cons]
        exact ⟨trivial, trivial, by omega⟩

set_option maxRecDepth 100000 in
/-- C4 (amended): the recursion guard across arrays, maps and tags.
The guard decrements before it checks (de.rs line 528), so the 128th
nested container — container depth exactly 128, which the claim counts
as within the limit — is already rejected: decoding `n + 1` nested
arrays (`0x81 × n` then `0x80`) succeeds exactly when `n + 1 < depth`
with the starting budget `depth = 128`, i.e. up to container depth 127;
both the claim's own 129-deep example and the 128-deep input fail with
`RecursionLimitExceeded`. -/
theorem recursion_limit_guard :
    (∀ (n f d : Nat) (rest : List Nat), n + 2 ≤ f → 1 ≤ d →
      parseValue f defaultOptions ValidAll .slice
          ⟨List.replicate n 0x81 ++ 0x80 :: rest, d⟩ =
        if n + 1 < d then (.ok (nestValue (n + 1)), ⟨rest, d⟩)
        else (.error .recursionLimitExceeded,
              ⟨List.drop d (List.replicate n 0x81 ++ 0x80 :: rest), d - 1⟩)) ∧
    from_slice (List.replicate 129 0x81) = .error .recursionLimitExceeded ∧
    from_slice (nestBytes 126) = .ok (nestValue 127) ∧
    from_slice (nestBytes 127) = .error .recursionLimitExceeded :=
  ⟨fun n f d rest hf hd => parseValue_nest n f d rest hf hd, rfl, rfl, rfl⟩

/-- Witness for C4: two nested arrays decode from depth 3, and the
129-deep input is rejected. -/
theorem recursion_limit_guard_witness :
    parseValue 3 defaultOptions ValidAll .slice ⟨[0x81, 0x80], 3⟩ =
      (.ok (nestValue 2), ⟨[], 3⟩) ∧
    from_slice (List.replicate 129 0x81) = .error .recursionLimitExceeded := by
  constructor
  · have h := recursion_limit_guard.1 1 3 3 [] (by norm_num) (by norm_num)
    rw [if_pos (by norm_num)] at h
    simpa using h
  · exact recursion_limit_guard.2.1

set_option maxRecDepth 100000 in
/-- Counterexample to C4 as stated: `nestValue 128` has container
nesting depth exactly 128 — "does not exceed 128" — and serializes to
the 128-byte input `nestBytes 127`, yet decoding raises
`RecursionLimitExceeded`. -/
theorem recursion_limit_guard_counterexample :
    valueDepth (nestValue 128) = 128 ∧
    to_vec (nestValue 128) = .ok (nestBytes 127) ∧
    from_slice (nestBytes 127) = .error .recursionLimitExceeded :=
  ⟨rfl, rfl, rfl⟩

/-- C5: a typed entry point's validity mask governs the `match` of
`parse_value`: whenever the initial byte selects no enabled case of the
mask `m` — a disabled major, a reserved gap, or the stop byte — the
parse returns `UnexpectedCode` carrying exactly the expected set built
from `m` and the offending byte, consuming only that byte; in
particular a top-level `[0xff]` under the permissive mask. -/
theorem unexpected_code_mask_dispatch :
    (∀ (m : ValidValues) (b : Nat), enabledCase m b = false →
      ∀ (o : DeserializerOptions) (k : Kind) (f : Nat) (rest : List Nat) (d : Nat),
        parseValue (f + 1) o m k ⟨b :: rest, d⟩ =
          (.error (.unexpectedCode (ExpectedSet.from_valid m) b), ⟨rest, d⟩)) ∧
    from_slice [0xff] = .error (.unexpectedCode (ExpectedSet.from_valid ValidAll) 0xff) :=
  ⟨fun m b h o k f rest d => unexpected_code_of_disabled m b h o k f rest d, rfl⟩

/-- Witness for C5: under the unsigned-integer mask (the `u64` entry
point) the major-1 byte `0x20` is rejected with the mask and the byte. -/
theorem unexpected_code_mask_dispatch_witness :
    parseValue 1 defaultOptions ValidForUInt .slice ⟨[0x20], 5⟩ =
      (.error (.unexpectedCode (ExpectedSet.from_valid ValidForUInt) 0x20), ⟨[], 5⟩) :=
  unexpected_code_mask_dispatch.1 ValidForUInt 0x20 (by decide) defaultOptions .slice 0 [] 5

/-- Witness for C3: payload 5 rides in the initial byte, payload 300
takes the 2-byte width with its big-endian bytes, and width 1 does not
fit 300. -/
theorem write_u64_minimal_witness :
    write_u64 0 5 = [0 <<< 5 ||| 5] ∧
    write_u64 2 300 = [(2 <<< 5 ||| (24 + Nat.log2 (minimalWidth 300))), 1, 44] ∧
    minimalWidth 300 = 2 := by
  refine ⟨(write_u64_minimal 0 5 (by norm_num) (by norm_num)).1 (by norm_num), ?_, by decide⟩
  have h := ((write_u64_minimal 2 300 (by norm_num) (by norm_num)).2 (by norm_num)).1
  rw [h]
  rw [show minimalWidth 300 = 2 from by decide]
  rfl

/-- Witness for C6: inside an indefinite text string a second `0x7f`
chunk head is rejected; inside an indefinite byte string a `0x20` head
is rejected. -/
theorem indefinite_chunk_head_check_witness :
    strChunksGo [] 1 ⟨[0x7f, 0xff], 5⟩ =
      (.error (.unexpectedCode ExpectedSet.STRING 0x7f), ⟨[0xff], 5⟩) ∧
    bytesChunksGo [] 1 ⟨[0x20, 0xff], 5⟩ =
      (.error (.unexpectedCode ExpectedSet.STRING 0x20), ⟨[0xff], 5⟩) :=
  ⟨indefinite_chunk_head_check.1 0x7f 0 [0xff] 5 [] (by norm_num) (by norm_num),
   indefinite_chunk_head_check.2.1 0x20 0 [0xff] 5 [] (by norm_num) (by norm_num)⟩

/-- Witness for C7: magnitude 5 fits `i64` and is delivered as
`i64 (-6)`; magnitude `2 ^ 63` does not and is delivered as
`i128 (-1 - 2 ^ 63)`. -/
theorem negative_delivery_witness :
    deliverSigned 5 = .i64 (-1 - (5 : Int)) ∧
    deliverSigned (2 ^ 63) = .i128 (-1 - ((2 ^ 63 : Nat) : Int)) :=
  ⟨(negative_delivery.1 5 (by norm_num)).1 (by norm_num),
   (negative_delivery.1 (2 ^ 63) (by norm_num)).2 (by push_cast)⟩

/-- Witness for C8: `i128` values `2 ^ 64` and `-(2 ^ 64) - 1` and the
`u128` value `2 ^ 64` overflow, while `2 ^ 64 - 1` still serializes. -/
theorem serialize_128_overflow_witness :
    serialize_i128 (2 ^ 64) = .error (.message "The number can't be stored in CBOR") ∧
    serialize_i128 (-(2 ^ 64) - 1) =
      .error (.message "The number can't be stored in CBOR") ∧
    serialize_u128 (2 ^ 64) = .error (.message "The number can't be stored in CBOR") ∧
    serialize_u128 (2 ^ 64 - 1) = .ok (write_u64 0 (2 ^ 64 - 1)) :=
  ⟨serialize_128_overflow.1 (2 ^ 64) (by norm_num),
   serialize_128_overflow.1 (-(2 ^ 64) - 1) (by norm_num),
   serialize_128_overflow.2.2.1 (2 ^ 64) (by norm_num),
   serialize_128_overflow.2.2.2 (2 ^ 64 - 1) (by norm_num)⟩

/-! ## Round-trip: heads written by `write_u64` parse back to the payload -/

theorem ofSigned_deliver (u : Nat) :
    Value.ofSigned (deliverSigned u) = .integer (-1 - (u : Int)) := by
  rw [deliverSigned]
  split_ifs <;> rfl

theorem read_into_exact (bs rest : List Nat) (d : Nat) :
    read_into bs.length ⟨bs ++ rest, d⟩ = (.ok bs, ⟨rest, d⟩) := by
  rw [read_into, if_pos (by simp)]
  simp

theorem parse_uint_round (wlog v : Nat) (hv : v < 256 ^ (2 ^ wlog))
    (rest : List Nat) (d : Nat) :
    parse_uint (wlog + 1) ⟨toBEBytes (2 ^ wlog) v ++ rest, d⟩ = (.ok v, ⟨rest, d⟩) := by
  rw [parse_uint, show (1 : Nat) <<< (wlog + 1 - 1) = 2 ^ wlog from by
      simp [Nat.shiftLeft_eq],
    show read_into (2 ^ wlog) ⟨toBEBytes (2 ^ wlog) v ++ rest, d⟩ =
        (.ok (toBEBytes (2 ^ wlog) v), ⟨rest, d⟩) from by
      have h := read_into_exact (toBEBytes (2 ^ wlog) v) rest d
      rwa [toBEBytes_length] at h]
  dsimp only
  rw [fromBE_toBE _ _ hv]

theorem write_u64_length_pos (M v : Nat) : 1 ≤ (write_u64 M v).length := by
  rw [write_u64]
  split_ifs <;> simp

/-- The heads the encoder writes for majors parsed through `parse_len`:
the head byte is `32 * M + ai` with `ai ≤ 27`, and `parse_len` recovers
the payload, consuming exactly the follow-on bytes. -/
theorem write_head (M : Nat) (hM : M < 8) (v : Nat) (hv : v < 2 ^ 64) :
    ∃ ai tl, write_u64 M v = (32 * M + ai) :: tl ∧ ai ≤ 27 ∧
      ∀ (rest : List Nat) (d : Nat),
        parseLen (32 * M) (32 * M + ai) ⟨tl ++ rest, d⟩ = (.ok v, ⟨rest, d⟩) := by
  by_cases c0 : v ≤ 0x17
  · refine ⟨v, [], ?_, by omega, fun rest d => ?_⟩
    · rw [write_u64, if_pos c0, shiftOr32 M hM v (by omega)]
    · rw [parseLen, if_pos (by omega)]
      simp
  · by_cases c1 : v ≤ 0xff
    · refine ⟨24, toBEBytes 1 v, ?_, by omega, fun rest d => ?_⟩
      · rw [write_u64, if_neg c0, if_pos c1, shiftOr32 M hM 24 (by omega)]
      · rw [parseLen, if_neg (by omega),
          show 32 * M + 24 - (32 * M + 0x17) = 0 + 1 from by omega,
          show toBEBytes 1 v = toBEBytes (2 ^ 0) v from rfl,
          parse_uint_round 0 v (by norm_num at c1 ⊢; omega) rest d]
    · by_cases c2 : v ≤ 0xffff
      · refine ⟨25, toBEBytes 2 v, ?_, by omega, fun rest d => ?_⟩
        · rw [write_u64, if_neg c0, if_neg (by norm_num at c1 ⊢; omega),
            if_pos (by omega), shiftOr32 M hM 25 (by omega)]
        · rw [parseLen, if_neg (by omega),
            show 32 * M + 25 - (32 * M + 0x17) = 1 + 1 from by omega,
            show toBEBytes 2 v = toBEBytes (2 ^ 1) v from rfl,
            parse_uint_round 1 v (by norm_num at c2 ⊢; omega) rest d]
      · by_cases c3 : v ≤ 0xffffffff
        · refine ⟨26, toBEBytes 4 v, ?_, by omega, fun rest d => ?_⟩
          · rw [write_u64, if_neg c0, if_neg (by norm_num at c1 ⊢; omega),
              if_neg (by omega), if_pos (by omega),
              shiftOr32 M hM 26 (by omega)]
          · rw [parseLen, if_neg (by omega),
              show 32 * M + 26 - (32 * M + 0x17) = 2 + 1 from by omega,
              show toBEBytes 4 v = toBEBytes (2 ^ 2) v from rfl,
              parse_uint_round 2 v (by norm_num at c3 ⊢; omega) rest d]
        · refine ⟨27, toBEBytes 8 v, ?_, by omega, fun rest d => ?_⟩
          · rw [write_u64, if_neg c0, if_neg (by norm_num at c1 ⊢; omega),
              if_neg (by norm_num at c2 ⊢; omega), if_neg (by norm_num at c3 ⊢; omega),
              shiftOr32 M hM 27 (by omega)]
          · rw [parseLen, if_neg (by omega),
              show 32 * M + 27 - (32 * M + 0x17) = 3 + 1 from by omega,
              show toBEBytes 8 v = toBEBytes (2 ^ 3) v from rfl,
              parse_uint_round 3 v (by norm_num at hv ⊢; omega) rest d]

/-- The major-1 arm parses back a head written with major 1: immediate
payloads are delivered straight from the byte, wider payloads through
`parse_uint`, both as `-1 - magnitude`. -/
theorem parse_major1_round (o : DeserializerOptions) (k : Kind)
    (pv : S → Except ErrorCode Value × S) (lf : Nat) (m : Nat) (hm : m < 2 ^ 64)
    (rest : List Nat) (d : Nat) :
    parseValueF o k pv lf ValidAll ⟨write_u64 1 m ++ rest, d⟩ =
      (.ok (.integer (-1 - (m : Int))), ⟨rest, d⟩) := by
  by_cases c0 : m ≤ 0x17
  · rw [write_u64, if_pos c0, shiftOr32 1 (by norm_num) m (by omega), List.cons_append,
      List.nil_append, parseValueF_major1 _ _ _ _ _ (by omega) (by omega),
      if_pos (by omega)]
    simp [Value.ofSigned]
    try omega
  · by_cases c1 : m ≤ 0xff
    · rw [write_u64, if_neg c0, if_pos c1, shiftOr32 1 (by norm_num) 24 (by norm_num),
        List.cons_append, parseValueF_major1 _ _ _ _ _ (by omega) (by omega),
        if_neg (by omega),
        show 32 * 1 + 24 - 0x37 = 0 + 1 from by omega,
        show toBEBytes 1 m = toBEBytes (2 ^ 0) m from rfl,
        parse_uint_round 0 m (by norm_num at c1 ⊢; omega) rest d]
      dsimp only
      rw [ofSigned_deliver]
    · by_cases c2 : m ≤ 0xffff
      · rw [write_u64, if_neg c0, if_neg (by norm_num at c1 ⊢; omega),
          if_pos (by omega), shiftOr32 1 (by norm_num) 25 (by norm_num),
          List.cons_append, parseValueF_major1 _ _ _ _ _ (by omega) (by omega),
          if_neg (by omega),
          show 32 * 1 + 25 - 0x37 = 1 + 1 from by omega,
          show toBEBytes 2 m = toBEBytes (2 ^ 1) m from rfl,
          parse_uint_round 1 m (by norm_num at c2 ⊢; omega) rest d]
        dsimp only
        rw [ofSigned_deliver]
      · by_cases c3 : m ≤ 0xffffffff
        · rw [write_u64, if_neg c0, if_neg (by norm_num at c1 ⊢; omega),
            if_neg (by omega), if_pos (by omega),
            shiftOr32 1 (by norm_num) 26 (by norm_num),
            List.cons_append, parseValueF_major1 _ _ _ _ _ (by omega) (by omega),
            if_neg (by omega),
            show 32 * 1 + 26 - 0x37 = 2 + 1 from by omega,
            show toBEBytes 4 m = toBEBytes (2 ^ 2) m from rfl,
            parse_uint_round 2 m (by norm_num at c3 ⊢; omega) rest d]
          dsimp only
          rw [ofSigned_deliver]
        · rw [write_u64, if_neg c0, if_neg (by norm_num at c1 ⊢; omega),
            if_neg (by norm_num at c2 ⊢; omega), if_neg (by norm_num at c3 ⊢; omega),
            shiftOr32 1 (by norm_num) 27 (by norm_num),
            List.cons_append, parseValueF_major1 _ _ _ _ _ (by omega) (by omega),
            if_neg (by omega),
            show 32 * 1 + 27 - 0x37 = 3 + 1 from by omega,
            show toBEBytes 8 m = toBEBytes (2 ^ 3) m from rfl,
            parse_uint_round 3 m (by norm_num at hm ⊢; omega) rest d]
          dsimp only
          rw [ofSigned_deliver]

theorem elemsGo_round (pv : S → Except ErrorCode Value × S) (d : Nat) :
    ∀ (xs : List Value) (body rest : List Nat),
      encodeList xs = .ok body →
      (∀ x ∈ xs, ∀ (a r2 : List Nat), encodeValue x = .ok a →
        pv ⟨a ++ r2, d⟩ = (.ok x, ⟨r2, d⟩)) →
      elemsGo pv xs.length ⟨body ++ rest, d⟩ = (.ok xs, ⟨rest, d⟩) := by
  intro xs
  induction xs with
  | nil =>
    intro body rest he hpv
    rw [show encodeList [] = Except.ok [] from rfl] at he
    cases he
    rw [List.length_nil, elemsGo_zero, List.nil_append]
  | cons x xs ih =>
    intro body rest he hpv
    rw [show encodeList (x :: xs) =
        (match encodeValue x with
         | .ok a =>
           match encodeList xs with
           | .ok b => .ok (a ++ b)
           | .error e => .error e
         | .error e => .error e) from rfl] at he
    rcases hea : encodeValue x with e | a <;> rw [hea] at he
    · cases he
    rcases heb : encodeList xs with e | b <;> rw [heb] at he
    · cases he
    dsimp only at he
    cases he
    rw [List.length_cons, elemsGo_succ, List.append_assoc,
      hpv x (by simp) a (b ++ rest) hea]
    dsimp only
    rw [ih b rest heb (fun y hy a2 r2 he2 => hpv y (by simp [hy]) a2 r2 he2)]

theorem mapGo_round (o : DeserializerOptions) (pv : S → Except ErrorCode Value × S)
    (d : Nat) (ho1 : o.accept_named = true) (ho2 : o.accept_packed = true) :
    ∀ (ps : List (Value × Value)) (body rest : List Nat),
      encodePairs ps = .ok body →
      (∀ p ∈ ps, ∀ (a r2 : List Nat), encodeValue p.1 = .ok a →
        pv ⟨a ++ r2, d⟩ = (.ok p.1, ⟨r2, d⟩)) →
      (∀ p ∈ ps, ∀ (a r2 : List Nat), encodeValue p.2 = .ok a →
        pv ⟨a ++ r2, d⟩ = (.ok p.2, ⟨r2, d⟩)) →
      mapGo o pv ps.length ⟨body ++ rest, d⟩ = (.ok ps, ⟨rest, d⟩) := by
  intro ps
  induction ps with
  | nil =>
    intro body rest he hk hv
    rw [show encodePairs [] = Except.ok [] from rfl] at he
    cases he
    rw [List.length_nil, mapGo_zero, List.nil_append]
  | cons p ps ih =>
    obtain ⟨kv, vv⟩ := p
    intro body rest he hk hv
    rw [show encodePairs ((kv, vv) :: ps) =
        (match encodeValue kv with
         | .ok a =>
           match encodeValue vv with
           | .ok b =>
             match encodePairs ps with
             | .ok c => .ok (a ++ b ++ c)
             | .error e => .error e
           | .error e => .error e
         | .error e => .error e) from rfl] at he
    rcases hea : encodeValue kv with e | a <;> rw [hea] at he
    · cases he
    rcases heb : encodeValue vv with e | b <;> rw [heb] at he
    · cases he
    rcases hec : encodePairs ps with e | c <;> rw [hec] at he
    · cases he
    dsimp only at he
    cases he
    rw [List.length_cons, mapGo_succ, checkKeyShape_none o _ ho1 ho2,
      List.append_assoc, List.append_assoc,
      hk (kv, vv) (by simp) a (b ++ (c ++ rest)) hea]
    dsimp only
    rw [hv (kv, vv) (by simp) b (c ++ rest) heb]
    dsimp only
    rw [ih c rest hec (fun p hp a2 r2 he2 => hk p (by simp [hp]) a2 r2 he2)
      (fun p hp a2 r2 he2 => hv p (by simp [hp]) a2 r2 he2)]

theorem readn_exact (k : Kind) (bs rest : List Nat) (d : Nat) :
    readn k bs.length ⟨bs ++ rest, d⟩ = (.ok (flavorOf k, bs), ⟨rest, d⟩) := by
  rw [readn, if_pos (by simp)]
  simp

theorem supportedList_mem : ∀ (xs : List Value) (x : Value), supportedList xs = true →
    x ∈ xs → supportedV x = true := by
  intro xs
  induction xs with
  | nil => intro x _ hx; cases hx
  | cons y ys ih =>
    intro x hs hx
    rw [show supportedList (y :: ys) = (supportedV y && supportedList ys) from rfl,
      Bool.and_eq_true] at hs
    rw [List.mem_cons] at hx
    rcases hx with rfl | hx
    · exact hs.1
    · exact ih x hs.2 hx

theorem depthList_mem : ∀ (xs : List Value) (x : Value), x ∈ xs →
    valueDepth x ≤ depthList xs := by
  intro xs
  induction xs with
  | nil => intro x hx; cases hx
  | cons y ys ih =>
    intro x hx
    rw [show depthList (y :: ys) = max (valueDepth y) (depthList ys) from rfl]
    rw [List.mem_cons] at hx
    rcases hx with rfl | hx
    · exact le_max_left _ _
    · exact le_trans (ih x hx) (le_max_right _ _)

theorem supportedPairs_mem : ∀ (ps : List (Value × Value)) (p : Value × Value),
    supportedPairs ps = true → p ∈ ps →
    supportedV p.1 = true ∧ supportedV p.2 = true := by
  intro ps
  induction ps with
  | nil => intro p _ hp; cases hp
  | cons q qs ih =>
    obtain ⟨kv, vv⟩ := q
    intro p hs hp
    rw [show supportedPairs ((kv, vv) :: qs) =
        (supportedV kv && supportedV vv && supportedPairs qs) from rfl,
      Bool.and_eq_true, Bool.and_eq_true] at hs
    rw [List.mem_cons] at hp
    rcases hp with rfl | hp
    · exact ⟨hs.1.1, hs.1.2⟩
    · exact ih p hs.2 hp

theorem depthPairs_mem : ∀ (ps : List (Value × Value)) (p : Value × Value), p ∈ ps →
    valueDepth p.1 ≤ depthPairs ps ∧ valueDepth p.2 ≤ depthPairs ps := by
  intro ps
  induction ps with
  | nil => intro p hp; cases hp
  | cons q qs ih =>
    obtain ⟨kv, vv⟩ := q
    intro p hp
    rw [show depthPairs ((kv, vv) :: qs) =
        max (max (valueDepth kv) (valueDepth vv)) (depthPairs qs) from rfl]
    rw [List.mem_cons] at hp
    rcases hp with rfl | hp
    · exact ⟨le_max_of_le_left (le_max_left _ _), le_max_of_le_left (le_max_right _ _)⟩
    · exact ⟨le_trans (ih p hp).1 (le_max_right _ _),
        le_trans (ih p hp).2 (le_max_right _ _)⟩

theorem encode_parse_round : ∀ (f : Nat) (v : Value) (bs rest : List Nat) (d : Nat),
    supportedV v = true → valueDepth v < d → valueDepth v + 1 ≤ f →
    encodeValue v = .ok bs →
    parseValue f defaultOptions ValidAll .slice ⟨bs ++ rest, d⟩ = (.ok v, ⟨rest, d⟩) := by
  intro f
  induction f with
  | zero => intro v bs rest d _ _ hf _; omega
  | succ f ih =>
    intro v bs rest d hs hd hf he
    rw [parseValue_succ]
    cases v with
    | null =>
      rw [show encodeValue .null = Except.ok [0xf6] from rfl] at he
      cases he
      rfl
    | bool b =>
      cases b
      · rw [show encodeValue (.bool false) = Except.ok [0xf4] from rfl] at he
        cases he
        rfl
      · rw [show encodeValue (.bool true) = Except.ok [0xf5] from rfl] at he
        cases he
        rfl
    | float mag pl =>
      rw [show supportedV (.float mag pl) = false from rfl] at hs
      cases hs
    | integer z =>
      rw [show encodeValue (.integer z) = serialize_i128 z from rfl] at he
      rw [show supportedV (.integer z) =
          (decide (-(2 ^ 64 : Int) ≤ z) && decide (z < (2 ^ 64 : Int))) from rfl,
        Bool.and_eq_true, decide_eq_true_eq, decide_eq_true_eq] at hs
      obtain ⟨h1, h2⟩ := hs
      by_cases hneg : z < 0
      · rw [serialize_i128, if_pos hneg, if_neg (by unfold u64MaxI; omega)] at he
        cases he
        rw [parse_major1_round _ _ _ _ (-(z + 1)).toNat (by omega) rest d,
          show (((-(z + 1)).toNat : Nat) : Int) = -(z + 1) from
            Int.toNat_of_nonneg (by omega),
          show (-1 - -(z + 1) : Int) = z from by ring]
      · rw [serialize_i128, if_neg hneg, if_neg (by unfold u64MaxI; omega)] at he
        cases he
        obtain ⟨ai, tl, hw, hai, hpl⟩ := write_head 0 (by norm_num) z.toNat (by omega)
        simp only [Nat.mul_zero, Nat.zero_add] at hw hpl
        rw [hw, List.cons_append, parseValueF_major0 _ _ _ _ _ (by omega), hpl rest d]
        dsimp only
        rw [show ((z.toNat : Nat) : Int) = z from Int.toNat_of_nonneg (by omega)]
    | bytes l =>
      rw [show encodeValue (.bytes l) = Except.ok (write_u64 2 l.length ++ l) from rfl] at he
      cases he
      rw [show supportedV (.bytes l) = decide (l.length < 2 ^ 64) from rfl,
        decide_eq_true_eq] at hs
      obtain ⟨ai, tl, hw, hai, hpl⟩ := write_head 2 (by norm_num) l.length hs
      rw [show (32 * 2 : Nat) = 0x40 from rfl] at hw hpl
      rw [List.append_assoc, hw, List.cons_append,
        parseValueF_major2 _ _ _ _ _ (by omega) (by omega), hpl (l ++ rest) d]
      dsimp only
      rw [if_neg (by unfold usizeMax; omega), readBytesItem, readn_exact]
      dsimp only
      rw [visitBytes_flavor]
    | text l =>
      rw [show encodeValue (.text l) = Except.ok (write_u64 3 l.length ++ l) from rfl] at he
      cases he
      rw [show supportedV (.text l) = (decide (l.length < 2 ^ 64) && utf8Valid l) from rfl,
        Bool.and_eq_true, decide_eq_true_eq] at hs
      obtain ⟨hlen, hu⟩ := hs
      obtain ⟨ai, tl, hw, hai, hpl⟩ := write_head 3 (by norm_num) l.length hlen
      rw [show (32 * 3 : Nat) = 0x60 from rfl] at hw hpl
      rw [List.append_assoc, hw, List.cons_append,
        parseValueF_major3 _ _ _ _ _ (by omega) (by omega), hpl (l ++ rest) d]
      dsimp only
      rw [if_neg (by unfold usizeMax; omega), readStrItem, readn_exact]
      dsimp only
      rw [visitStr_flavor, if_pos hu]
    | array xs =>
      rw [show encodeValue (.array xs) =
          (match encodeList xs with
           | .ok body => .ok (write_u64 4 xs.length ++ body)
           | .error e => .error e) from rfl] at he
      rcases heb : encodeList xs with e | body <;> rw [heb] at he
      · cases he
      dsimp only at he
      cases he
      rw [show supportedV (.array xs) =
          (decide (xs.length < 2 ^ 64) && supportedList xs) from rfl,
        Bool.and_eq_true, decide_eq_true_eq] at hs
      obtain ⟨hlen, hsl⟩ := hs
      rw [show valueDepth (.array xs) = 1 + depthList xs from rfl] at hd hf
      obtain ⟨ai, tl, hw, hai, hpl⟩ := write_head 4 (by norm_num) xs.length hlen
      rw [show (32 * 4 : Nat) = 0x80 from rfl] at hw hpl
      rw [List.append_assoc, hw, List.cons_append,
        parseValueF_major4 _ _ _ _ _ (by omega) (by omega), hpl (body ++ rest) d]
      dsimp only
      rw [if_neg (by unfold usizeMax; omega)]
      unfold recursion_checked
      dsimp only
      rw [if_neg (by omega)]
      rw [elemsGo_round _ (d - 1) xs body rest heb (fun x hx a r2 hea =>
        ih x a r2 (d - 1)
          (supportedList_mem xs x hsl hx)
          (by have := depthList_mem xs x hx; omega)
          (by have := depthList_mem xs x hx; omega)
          hea)]
      dsimp only
      simp only [Prod.mk.injEq, S.mk.injEq]
      exact ⟨trivial, trivial, by omega⟩
    | map ps =>
      rw [show encodeValue (.map ps) =
          (match encodePairs ps with
           | .ok body => .ok (write_u64 5 ps.length ++ body)
           | .error e => .error e) from rfl] at he
      rcases heb : encodePairs ps with e | body <;> rw [heb] at he
      · cases he
      dsimp only at he
      cases he
      rw [show supportedV (.map ps) =
          (decide (ps.length < 2 ^ 64) && supportedPairs ps) from rfl,
        Bool.and_eq_true, decide_eq_true_eq] at hs
      obtain ⟨hlen, hsp⟩ := hs
      rw [show valueDepth (.map ps) = 1 + depthPairs ps from rfl] at hd hf
      obtain ⟨ai, tl, hw, hai, hpl⟩ := write_head 5 (by norm_num) ps.length hlen
      rw [show (32 * 5 : Nat) = 0xa0 from rfl] at hw hpl
      rw [List.append_assoc, hw, List.cons_append,
        parseValueF_major5 _ _ _ _ _ (by omega) (by omega), hpl (body ++ rest) d]
      dsimp only
      rw [if_neg (by unfold usizeMax; omega)]
      unfold recursion_checked
      dsimp only
      rw [if_neg (by omega)]
      rw [mapGo_round defaultOptions _ (d - 1) rfl rfl ps body rest heb
        (fun p hp a r2 hea => ih p.1 a r2 (d - 1)
          (supportedPairs_mem ps p hsp hp).1
          (by have := (depthPairs_mem ps p hp).1; omega)
          (by have := (depthPairs_mem ps p hp).1; omega) hea)
        (fun p hp a r2 hea => ih p.2 a r2 (d - 1)
          (supportedPairs_mem ps p hsp hp).2
          (by have := (depthPairs_mem ps p hp).2; omega)
          (by have := (depthPairs_mem ps p hp).2; omega) hea)]
      dsimp only
      simp only [Prod.mk.injEq, S.mk.injEq]
      exact ⟨trivial, trivial, by omega⟩
    | tag t v =>
      rw [show encodeValue (.tag t v) =
          (match encodeValue v with
           | .ok body => .ok (write_u64 6 t ++ body)
           | .error e => .error e) from rfl] at he
      rcases heb : encodeValue v with e | body <;> rw [heb] at he
      · cases he
      dsimp only at he
      cases he
      rw [show supportedV (.tag t v) = (decide (t < 2 ^ 64) && supportedV v) from rfl,
        Bool.and_eq_true, decide_eq_true_eq] at hs
      obtain ⟨hlen, hsv⟩ := hs
      rw [show valueDepth (.tag t v) = 1 + valueDepth v from rfl] at hd hf
      obtain ⟨ai, tl, hw, hai, hpl⟩ := write_head 6 (by norm_num) t hlen
      rw [show (32 * 6 : Nat) = 0xc0 from rfl] at hw hpl
      rw [List.append_assoc, hw, List.cons_append,
        parseValueF_major6 _ _ _ _ _ (by omega) (by omega), hpl (body ++ rest) d]
      dsimp only
      unfold recursion_checked
      dsimp only
      rw [if_neg (by omega)]
      rw [ih v body rest (d - 1) hsv (by omega) (by omega) heb]
      dsimp only
      simp only [Prod.mk.injEq, S.mk.injEq]
      exact ⟨trivial, trivial, by omega⟩

theorem serialize_i128_ok (z : Int) (h1 : -(2 ^ 64) ≤ z) (h2 : z < (2 ^ 64 : Int)) :
    ∃ bs, serialize_i128 z = .ok bs := by
  rw [serialize_i128]
  by_cases hneg : z < 0
  · rw [if_pos hneg, if_neg (by unfold u64MaxI; omega)]
    exact ⟨_, rfl⟩
  · rw [if_neg hneg, if_neg (by unfold u64MaxI; omega)]
    exact ⟨_, rfl⟩

theorem encodeList_total (n : Nat)
    (ih : ∀ v : Value, valueDepth v ≤ n → supportedV v = true →
      ∃ bs, encodeValue v = .ok bs) :
    ∀ (xs : List Value), depthList xs ≤ n → supportedList xs = true →
      ∃ body, encodeList xs = .ok body := by
  intro xs
  induction xs with
  | nil => intro _ _; exact ⟨[], rfl⟩
  | cons x xs ihl =>
    intro hdep hs
    rw [show depthList (x :: xs) = max (valueDepth x) (depthList xs) from rfl] at hdep
    rw [show supportedList (x :: xs) = (supportedV x && supportedList xs) from rfl,
      Bool.and_eq_true] at hs
    obtain ⟨a, ha⟩ := ih x (le_trans (le_max_left _ _) hdep) hs.1
    obtain ⟨b, hb⟩ := ihl (le_trans (le_max_right _ _) hdep) hs.2
    refine ⟨a ++ b, ?_⟩
    rw [show encodeList (x :: xs) =
        (match encodeValue x with
         | .ok a =>
           match encodeList xs with
           | .ok b => .ok (a ++ b)
           | .error e => .error e
         | .error e => .error e) from rfl, ha, hb]

theorem encodePairs_total (n : Nat)
    (ih : ∀ v : Value, valueDepth v ≤ n → supportedV v = true →
      ∃ bs, encodeValue v = .ok bs) :
    ∀ (ps : List (Value × Value)), depthPairs ps ≤ n → supportedPairs ps = true →
      ∃ body, encodePairs ps = .ok body := by
  intro ps
  induction ps with
  | nil => intro _ _; exact ⟨[], rfl⟩
  | cons p ps ihl =>
    obtain ⟨kv, vv⟩ := p
    intro hdep hs
    rw [show depthPairs ((kv, vv) :: ps) =
        max (max (valueDepth kv) (valueDepth vv)) (depthPairs ps) from rfl] at hdep
    rw [show supportedPairs ((kv, vv) :: ps) =
        (supportedV kv && supportedV vv && supportedPairs ps) from rfl,
      Bool.and_eq_true, Bool.and_eq_true] at hs
    obtain ⟨a, ha⟩ := ih kv
      (le_trans (le_trans (le_max_left _ _) (le_max_left _ _)) hdep) hs.1.1
    obtain ⟨b, hb⟩ := ih vv
      (le_trans (le_trans (le_max_right _ _) (le_max_left _ _)) hdep) hs.1.2
    obtain ⟨c, hc⟩ := ihl (le_trans (le_max_right _ _) hdep) hs.2
    refine ⟨a ++ b ++ c, ?_⟩
    rw [show encodePairs ((kv, vv) :: ps) =
        (match encodeValue kv with
         | .ok a =>
           match encodeValue vv with
           | .ok b =>
             match encodePairs ps with
             | .ok c => .ok (a ++ b ++ c)
             | .error e => .error e
           | .error e => .error e
         | .error e => .error e) from rfl, ha, hb, hc]

theorem encode_total : ∀ (n : Nat) (v : Value), valueDepth v ≤ n → supportedV v = true →
    ∃ bs, encodeValue v = .ok bs := by
  intro n
  induction n with
  | zero =>
    intro v hdep hs
    cases v with
    | null => exact ⟨_, rfl⟩
    | bool b => exact ⟨_, rfl⟩
    | integer z =>
      rw [show supportedV (.integer z) =
          (decide (-(2 ^ 64 : Int) ≤ z) && decide (z < (2 ^ 64 : Int))) from rfl,
        Bool.and_eq_true, decide_eq_true_eq, decide_eq_true_eq] at hs
      exact serialize_i128_ok z hs.1 hs.2
    | float mag pl => rw [show supportedV (.float mag pl) = false from rfl] at hs; cases hs
    | bytes l => exact ⟨_, rfl⟩
    | text l => exact ⟨_, rfl⟩
    | array xs =>
      rw [show valueDepth (.array xs) = 1 + depthList xs from rfl] at hdep
      omega
    | map ps =>
      rw [show valueDepth (.map ps) = 1 + depthPairs ps from rfl] at hdep
      omega
    | tag t v =>
      rw [show valueDepth (.tag t v) = 1 + valueDepth v from rfl] at hdep
      omega
  | succ n ih =>
    intro v hdep hs
    cases v with
    | null => exact ⟨_, rfl⟩
    | bool b => exact ⟨_, rfl⟩
    | integer z =>
      rw [show supportedV (.integer z) =
          (decide (-(2 ^ 64 : Int) ≤ z) && decide (z < (2 ^ 64 : Int))) from rfl,
        Bool.and_eq_true, decide_eq_true_eq, decide_eq_true_eq] at hs
      exact serialize_i128_ok z hs.1 hs.2
    | float mag pl => rw [show supportedV (.float mag pl) = false from rfl] at hs; cases hs
    | bytes l => exact ⟨_, rfl⟩
    | text l => exact ⟨_, rfl⟩
    | array xs =>
      rw [show valueDepth (.array xs) = 1 + depthList xs from rfl] at hdep
      rw [show supportedV (.array xs) =
          (decide (xs.length < 2 ^ 64) && supportedList xs) from rfl,
        Bool.and_eq_true] at hs
      obtain ⟨body, hb⟩ := encodeList_total n ih xs (by omega) hs.2
      refine ⟨write_u64 4 xs.length ++ body, ?_⟩
      rw [show encodeValue (.array xs) =
          (match encodeList xs with
           | .ok body => .ok (write_u64 4 xs.length ++ body)
           | .error e => .error e) from rfl, hb]
    | map ps =>
      rw [show valueDepth (.map ps) = 1 + depthPairs ps from rfl] at hdep
      rw [show supportedV (.map ps) =
          (decide (ps.length < 2 ^ 64) && supportedPairs ps) from rfl,
        Bool.and_eq_true] at hs
      obtain ⟨body, hb⟩ := encodePairs_total n ih ps (by omega) hs.2
      refine ⟨write_u64 5 ps.length ++ body, ?_⟩
      rw [show encodeValue (.map ps) =
          (match encodePairs ps with
           | .ok body => .ok (write_u64 5 ps.length ++ body)
           | .error e => .error e) from rfl, hb]
    | tag t v =>
      rw [show valueDepth (.tag t v) = 1 + valueDepth v from rfl] at hdep
      rw [show supportedV (.tag t v) = (decide (t < 2 ^ 64) && supportedV v) from rfl,
        Bool.and_eq_true] at hs
      obtain ⟨body, hb⟩ := ih v (by omega) hs.2
      refine ⟨write_u64 6 t ++ body, ?_⟩
      rw [show encodeValue (.tag t v) =
          (match encodeValue v with
           | .ok body => .ok (write_u64 6 t ++ body)
           | .error e => .error e) from rfl, hb]

theorem depthList_le_encode (n : Nat)
    (ih : ∀ (v : Value) (bs : List Nat), valueDepth v ≤ n → encodeValue v = .ok bs →
      valueDepth v ≤ bs.length) :
    ∀ (xs : List Value) (body : List Nat), depthList xs ≤ n → encodeList xs = .ok body →
      depthList xs ≤ body.length := by
  intro xs
  induction xs with
  | nil =>
    intro body _ he
    rw [show depthList [] = 0 from rfl]
    omega
  | cons x xs ihl =>
    intro body hdep he
    rw [show depthList (x :: xs) = max (valueDepth x) (depthList xs) from rfl] at hdep ⊢
    rw [show encodeList (x :: xs) =
        (match encodeValue x with
         | .ok a =>
           match encodeList xs with
           | .ok b => .ok (a ++ b)
           | .error e => .error e
         | .error e => .error e) from rfl] at he
    rcases hea : encodeValue x with e | a <;> rw [hea] at he
    · cases he
    rcases heb : encodeList xs with e | b <;> rw [heb] at he
    · cases he
    dsimp only at he
    cases he
    have h1 := ih x a (le_trans (le_max_left _ _) hdep) hea
    have h2 := ihl b (le_trans (le_max_right _ _) hdep) heb
    rw [List.length_append]
    omega

theorem depthPairs_le_encode (n : Nat)
    (ih : ∀ (v : Value) (bs : List Nat), valueDepth v ≤ n → encodeValue v = .ok bs →
      valueDepth v ≤ bs.length) :
    ∀ (ps : List (Value × Value)) (body : List Nat), depthPairs ps ≤ n →
      encodePairs ps = .ok body → depthPairs ps ≤ body.length := by
  intro ps
  induction ps with
  | nil =>
    intro body _ he
    rw [show depthPairs [] = 0 from rfl]
    omega
  | cons p ps ihl =>
    obtain ⟨kv, vv⟩ := p
    intro body hdep he
    rw [show depthPairs ((kv, vv) :: ps) =
        max (max (valueDepth kv) (valueDepth vv)) (depthPairs ps) from rfl] at hdep ⊢
    rw [show encodePairs ((kv, vv) :: ps) =
        (match encodeValue kv with
         | .ok a =>
           match encodeValue vv with
           | .ok b =>
             match encodePairs ps with
             | .ok c => .ok (a ++ b ++ c)
             | .error e => .error e
           | .error e => .error e
         | .error e => .error e) from rfl] at he
    rcases hea : encodeValue kv with e | a <;> rw [hea] at he
    · cases he
    rcases heb : encodeValue vv with e | b <;> rw [heb] at he
    · cases he
    rcases hec : encodePairs ps with e | c <;> rw [hec] at he
    · cases he
    dsimp only at he
    cases he
    have h1 := ih kv a
      (le_trans (le_trans (le_max_left _ _) (le_max_left _ _)) hdep) hea
    have h2 := ih vv b
      (le_trans (le_trans (le_max_right _ _) (le_max_left _ _)) hdep) heb
    have h3 := ihl c (le_trans (le_max_right _ _) hdep) hec
    rw [List.length_append, List.length_append]
    omega

theorem depth_le_encode : ∀ (n : Nat) (v : Value) (bs : List Nat), valueDepth v ≤ n →
    encodeValue v = .ok bs → valueDepth v ≤ bs.length := by
  intro n
  induction n with
  | zero =>
    intro v bs hdep he
    omega
  | succ n ih =>
    intro v bs hdep he
    cases v with
    | null => rw [show valueDepth .null = 0 from rfl]; omega
    | bool b => rw [show valueDepth (.bool b) = 0 from rfl]; omega
    | integer z => rw [show valueDepth (.integer z) = 0 from rfl]; omega
    | float mag pl => rw [show valueDepth (.float mag pl) = 0 from rfl]; omega
    | bytes l => rw [show valueDepth (.bytes l) = 0 from rfl]; omega
    | text l => rw [show valueDepth (.text l) = 0 from rfl]; omega
    | array xs =>
      rw [show valueDepth (.array xs) = 1 + depthList xs from rfl] at hdep ⊢
      rw [show encodeValue (.array xs) =
          (match encodeList xs with
           | .ok body => .ok (write_u64 4 xs.length ++ body)
           | .error e => .error e) from rfl] at he
      rcases heb : encodeList xs with e | body <;> rw [heb] at he
      · cases he
      dsimp only at he
      cases he
      have h1 := depthList_le_encode n ih xs body (by omega) heb
      have h2 := write_u64_length_pos 4 xs.length
      rw [List.length_append]
      omega
    | map ps =>
      rw [show valueDepth (.map ps) = 1 + depthPairs ps from rfl] at hdep ⊢
      rw [show encodeValue (.map ps) =
          (match encodePairs ps with
           | .ok body => .ok (write_u64 5 ps.length ++ body)
           | .error e => .error e) from rfl] at he
      rcases heb : encodePairs ps with e | body <;> rw [heb] at he
      · cases he
      dsimp only at he
      cases he
      have h1 := depthPairs_le_encode n ih ps body (by omega) heb
      have h2 := write_u64_length_pos 5 ps.length
      rw [List.length_append]
      omega
    | tag t v =>
      rw [show valueDepth (.tag t v) = 1 + valueDepth v from rfl] at hdep ⊢
      rw [show encodeValue (.tag t v) =
          (match encodeValue v with
           | .ok body => .ok (write_u64 6 t ++ body)
           | .error e => .error e) from rfl] at he
      rcases heb : encodeValue v with e | body <;> rw [heb] at he
      · cases he
      dsimp only at he
      cases he
      have h1 := ih v body (by omega) heb
      have h2 := write_u64_length_pos 6 t
      rw [List.length_append]
      omega

/-- C1 (amended): the encode-decode round trip.  For every supported
value whose container nesting stays below the decoder's depth budget of
128, `to_vec` succeeds and `from_slice` maps its output back to the
value.  The depth bound is necessary: the recursion guard rejects a
128-deep value's own encoding (see the counterexample). -/
theorem round_trip (v : Value) (hs : supportedV v = true) (hd : valueDepth v < 128) :
    ∃ bs, to_vec v = .ok bs ∧ from_slice bs = .ok v := by
  obtain ⟨bs, he⟩ := encode_total (valueDepth v) v le_rfl hs
  refine ⟨bs, he, ?_⟩
  have hlen := depth_le_encode (valueDepth v) v bs le_rfl he
  unfold from_slice deserializeWith
  have h := encode_parse_round (bs.length + 2) v bs [] 128 hs hd (by omega) he
  rw [List.append_nil] at h
  rw [h]
  rfl

/-- Witness for C1: a two-element heterogeneous array survives the
round trip. -/
theorem round_trip_witness :
    ∃ bs, to_vec (Value.array [Value.integer 255, Value.text [0x41]]) = .ok bs ∧
      from_slice bs = .ok (Value.array [Value.integer 255, Value.text [0x41]]) :=
  round_trip (Value.array [Value.integer 255, Value.text [0x41]]) (by rfl) (by decide)

set_option maxRecDepth 100000 in
/-- Counterexample to C1 as stated: `nestValue 128` is a supported
shape and serializes fine, but deserializing its own encoding fails on
the recursion limit instead of returning the value. -/
theorem round_trip_counterexample :
    supportedV (nestValue 128) = true ∧
    to_vec (nestValue 128) = .ok (nestBytes 127) ∧
    from_slice (nestBytes 127) = .error .recursionLimitExceeded :=
  ⟨rfl, rfl, rfl⟩


end SerdeCbor
